import Mathlib

/-!
# EchoMine — verification of the real-time session & dispatch pipeline

Shallow embedding of the core of the EchoMine voice-chat backend:

* `EchoMine.Stt` — the VAD-driven audio segmentation state machine of
  `stt_server.py` (`ws_stt`): frame classification, speech runs, the
  silence cutoff, minimum-utterance filtering, transcription dispatch and
  the per-connection sequence counter.
* `EchoMine.Gateway` — the Redis-backed credential & session store of
  `gateway/session_manager.py`, the websocket authentication prefix of
  `gateway/main.py`, and the message interception of `gateway/proxy.py`.
* `EchoMine.Dispatch` — the retry envelope and consumer retry bound of
  `rabbitmq_config.py`, `rag_worker.py` and `memory_worker.py`.

Machine integers do not overflow in any of the modelled code paths
(counters and timestamps are small), so `Nat` models Python ints directly;
wall-clock times (Python floats from `time.time()`) are modelled as `Rat`.
-/

namespace EchoMine

/-- Truthiness of Python `s.strip()`: true iff `s` contains a
non-whitespace character (stripping removes leading/trailing whitespace,
so the stripped string is non-empty exactly then). -/
def strippedNonempty (s : String) : Bool :=
  s.data.any fun c => !c.isWhitespace

namespace Stt

/-! ## Audio segmentation engine (`stt_server.py`) -/

/-- Constant `SAMPLE_RATE = 16000` (stt_server.py line 21). -/
def SAMPLE_RATE : ℕ := 16000

/-- Constant `SAMPLE_WIDTH = 2` — int16 is two bytes (line 22). -/
def SAMPLE_WIDTH : ℕ := 2

/-- Constant `FRAME_MS = 20` (line 23). -/
def FRAME_MS : ℕ := 20

/-- Constant `FRAME_BYTES = int(SAMPLE_RATE * FRAME_MS / 1000.0 * SAMPLE_WIDTH)` = 640
(line 24). -/
def FRAME_BYTES : ℕ := SAMPLE_RATE * FRAME_MS / 1000 * SAMPLE_WIDTH

/-- Constant `SILENCE_CUTOFF_MS = 700` (line 28). -/
def SILENCE_CUTOFF_MS : ℕ := 700

/-- Constant `MIN_UTTERANCE_MS = 250` (line 29). -/
def MIN_UTTERANCE_MS : ℕ := 250

/-- One inbound frame after length normalization (lines 141-145 pad or
truncate every frame to `FRAME_BYTES` bytes).  `isVoice` is the result of
`vad.is_speech(frame, SAMPLE_RATE)` — the external VAD collaborator is an
oracle, so the classification is part of the input.  `payload` abstracts
the 640 normalized audio bytes; `t` is the arrival wall-clock time
`now = time.time()` in seconds. -/
structure Frame where
  isVoice : Bool
  payload : ℕ
  t : ℚ
deriving DecidableEq

/-- Outcome of
`asyncio.wait_for(loop.run_in_executor(None, transcribe_blocking, pcm), timeout=30.0)`
(lines 177-205): a returned text, an `asyncio.TimeoutError`, or any other
exception. -/
inductive TOutcome where
  | ok (text : String)
  | timeout
  | failure (msg : String)
deriving DecidableEq

/-- Observable outputs of one connection of `ws_stt`: the JSON events sent
to the client and the utterance jobs published to the `rag` exchange.
`finalTooShort` is the `{"type": "final", "text": "", "reason": "too_short"}`
event — by the shape of line 166 it carries no `seq` field.
`publishJob` is the persistent publish of
`{"text": text, "connection_id": connection_id, "seq": seq}` with routing
key `queries` (lines 188-199). -/
inductive Out where
  | speechStart
  | speechEnd
  | finalTooShort
  | final (text : String) (seq : ℕ)
  | publishJob (text : String) (connectionId : String) (seq : ℕ)
  | errorTranscribe (msg : String)
deriving DecidableEq

/-- Per-connection mutable state of `ws_stt` (lines 91-94):
`speech_buf` (as the list of buffered normalized frame payloads, each
`FRAME_BYTES` bytes), `in_speech`, `last_voice_ts`, `seq`. -/
structure ConnState where
  speechBuf : List ℕ
  inSpeech : Bool
  lastVoiceTs : ℚ
  seq : ℕ
deriving DecidableEq

/-- State at connection open (lines 91-94): empty buffer, not in speech,
`last_voice_ts = time.time()` (the open time `t0`), `seq = 0`. -/
def initConn (t0 : ℚ) : ConnState := ⟨[], false, t0, 0⟩

/-- Duration `utter_ms = len(speech_buf) / (SAMPLE_RATE * SAMPLE_WIDTH) * 1000.0`
(line 163), with the buffer length in bytes. -/
def utterMs (buf : List ℕ) : ℚ :=
  ((buf.length * FRAME_BYTES : ℕ) : ℚ) / ((SAMPLE_RATE * SAMPLE_WIDTH : ℕ) : ℚ) * 1000

/-- One iteration of the `ws_stt` receive loop (lines 147-205) on a
length-normalized frame.  `transcribe` is the transcription collaborator
oracle applied to the buffered payloads (`transcribe_blocking(pcm)`),
`fwd` is the `forward_transcription` query flag (default `True`), `cid`
the connection id.  The publish on line 188 is also guarded by
`rag_exchange` being set; the exchange is initialized at startup, so the
model takes it as available. -/
def step (transcribe : List ℕ → TOutcome) (fwd : Bool) (cid : String)
    (st : ConnState) (f : Frame) : ConnState × List Out :=
  if f.isVoice then
    if st.inSpeech then
      ({ st with lastVoiceTs := f.t, speechBuf := st.speechBuf ++ [f.payload] }, [])
    else
      ({ st with lastVoiceTs := f.t, inSpeech := true, speechBuf := [f.payload] },
        [Out.speechStart])
  else if st.inSpeech then
    if (SILENCE_CUTOFF_MS : ℚ) ≤ (f.t - st.lastVoiceTs) * 1000 then
      if utterMs st.speechBuf < (MIN_UTTERANCE_MS : ℚ) then
        ({ st with inSpeech := false, speechBuf := [] },
          [Out.speechEnd, Out.finalTooShort])
      else
        match transcribe st.speechBuf with
        | TOutcome.ok text =>
            ({ st with inSpeech := false, speechBuf := [], seq := st.seq + 1 },
              [Out.speechEnd]
                ++ (if fwd then [Out.final text (st.seq + 1)] else [])
                ++ (if strippedNonempty text then [Out.publishJob text cid (st.seq + 1)] else []))
        | TOutcome.timeout =>
            ({ st with inSpeech := false, speechBuf := [] },
              [Out.speechEnd, Out.errorTranscribe "timeout"])
        | TOutcome.failure m =>
            ({ st with inSpeech := false, speechBuf := [] },
              [Out.speechEnd, Out.errorTranscribe m])
    else (st, [])
  else (st, [])

/-- The receive loop over a finite inbound frame sequence, collecting all
outputs in emission order. -/
def run (transcribe : List ℕ → TOutcome) (fwd : Bool) (cid : String) :
    ConnState → List Frame → ConnState × List Out
  | st, [] => (st, [])
  | st, f :: fs =>
      let p := step transcribe fwd cid st f
      let q := run transcribe fwd cid p.1 fs
      (q.1, p.2 ++ q.2)

/-- Seq numbers carried by transcribed `final` events, in emission order. -/
def finalSeqs (outs : List Out) : List ℕ :=
  outs.filterMap fun o =>
    match o with
    | Out.final _ s => some s
    | _ => none

/-- The (text, seq) pairs of transcribed `final` events, in emission order. -/
def finalPairs (outs : List Out) : List (String × ℕ) :=
  outs.filterMap fun o =>
    match o with
    | Out.final t s => some (t, s)
    | _ => none

/-- The (text, connection id, seq) triples of published utterance jobs, in
emission order. -/
def pubTriples (outs : List Out) : List (String × String × ℕ) :=
  outs.filterMap fun o =>
    match o with
    | Out.publishJob t c s => some (t, c, s)
    | _ => none

/-- Speech-boundary event markers. -/
inductive SE where
  | start
  | stop
deriving DecidableEq

/-- Projection of an output to its speech-boundary marker, if any. -/
def seOf : Out → Option SE
  | Out.speechStart => some SE.start
  | Out.speechEnd => some SE.stop
  | _ => none

/-- The subsequence of `speech_start`/`speech_end` events of an output
stream. -/
def seEvents (outs : List Out) : List SE := outs.filterMap seOf

/-- Predicate `alternates inSp es` holds when `es` is a well-nested alternation of
`start`/`stop` markers beginning from speech state `inSp`: every `start`
happens outside speech and every `stop` inside it. -/
def alternates : Bool → List SE → Bool
  | _, [] => true
  | false, SE.start :: rest => alternates true rest
  | true, SE.stop :: rest => alternates false rest
  | _, _ => false

/-! ### Contiguously clocked frames

The claims about speech runs speak of a per-frame classification sequence
with frames of fixed `FRAME_MS` duration, i.e. frame `i` arrives at wall
time `(i+1) * FRAME_MS / 1000` seconds after the connection opens at time
`0`.  `clockFrames i xs` builds that timed frame sequence starting at
frame index `i`, with the frame index doubling as the abstract payload. -/

def clockFrames : ℕ → List Bool → List Frame
  | _, [] => []
  | i, b :: bs =>
      ⟨b, i, ((i + 1 : ℕ) : ℚ) * (FRAME_MS : ℚ) / 1000⟩ :: clockFrames (i + 1) bs

/-- The engine run on a contiguously clocked classification sequence from
the connection-open state. -/
def runClocked (transcribe : List ℕ → TOutcome) (fwd : Bool) (cid : String)
    (xs : List Bool) : ConnState × List Out :=
  run transcribe fwd cid (initConn 0) (clockFrames 0 xs)

/-- Number of consecutive frames making up the silence cutoff:
`SILENCE_CUTOFF_MS / FRAME_MS = 35`. -/
def gapLimit : ℕ := SILENCE_CUTOFF_MS / FRAME_MS

/-! ### Index-level view of the boundary machine

On contiguously clocked frames the wall-clock silence test
`(now - last_voice_ts) * 1000 >= SILENCE_CUTOFF_MS` becomes the frame
count test `gapLimit ≤ n - lastV`.  `stepIdx`/`runIdx` is that index-level
machine, restricted to the boundary events. -/

structure IState where
  inSp : Bool
  lastV : ℕ
deriving DecidableEq

def stepIdx (st : IState) (n : ℕ) (b : Bool) : IState × List SE :=
  if b then
    ({ inSp := true, lastV := n }, if st.inSp then [] else [SE.start])
  else if st.inSp then
    if gapLimit ≤ n - st.lastV then ({ st with inSp := false }, [SE.stop])
    else (st, [])
  else (st, [])

def runIdx : IState → ℕ → List Bool → IState × List SE
  | st, _, [] => (st, [])
  | st, n, b :: bs =>
      let p := stepIdx st n b
      let q := runIdx p.1 (n + 1) bs
      (q.1, p.2 ++ q.2)

/-! ### Maximal speech runs, from the spec's words

A maximal run of speech activity is a maximal set of speech frames in
which consecutive speech frames are at most `gapLimit` frames apart
(non-speech gaps shorter than the silence cutoff stay inside the run).
A run is closed when the sequence still contains the frame `gapLimit`
places after its last speech frame — the frame at which the engine can
observe the full silence cutoff. -/

/-- Frame `i` starts a maximal run: it is a speech frame with no speech
frame at most `gapLimit` places before it. -/
def isRunStart (xs : List Bool) (i : ℕ) : Bool :=
  xs.getD i false &&
    decide (∀ j, j < i → i ≤ j + gapLimit → xs.getD j false = false)

/-- Frame `i` is the last speech frame of its maximal run: it is a speech
frame with no speech frame at most `gapLimit` places after it. -/
def isRunLastVoice (xs : List Bool) (i : ℕ) : Bool :=
  xs.getD i false &&
    decide (∀ j, j ≤ i + gapLimit → i < j → xs.getD j false = false)

/-- Number of maximal runs of speech activity in `xs`. -/
def numRuns (xs : List Bool) : ℕ :=
  (List.range xs.length).countP (isRunStart xs)

/-- Number of closed maximal runs: runs whose last speech frame is
followed inside the sequence by the full silence cutoff. -/
def numClosedRuns (xs : List Bool) : ℕ :=
  (List.range xs.length).countP
    (fun i => isRunLastVoice xs i && decide (i + gapLimit < xs.length))

/-- Frame `m` is where a closed run's silence cutoff completes: `m` lies
`gapLimit` frames after the last speech frame of a maximal run. -/
def isStopIdx (xs : List Bool) (m : ℕ) : Bool :=
  decide (gapLimit ≤ m) && isRunLastVoice xs (m - gapLimit)

/-- Correspondence between the wall-clock engine state and the
index-level boundary machine after `n` contiguously clocked frames. -/
def RelSt (n : ℕ) (st : ConnState) (ist : IState) : Prop :=
  st.inSpeech = ist.inSp ∧
    (st.inSpeech = true →
      ist.lastV < n ∧
        st.lastVoiceTs = ((ist.lastV + 1 : ℕ) : ℚ) * (FRAME_MS : ℚ) / 1000)

/-- Invariant of the index-level boundary machine against the full
classification sequence `xs`, holding before frame `n` is processed:
outside speech there is no speech frame within `gapLimit` frames before
`n`; inside speech, `lastV` is the most recent speech frame, less than
`gapLimit + 1` frames back. -/
def IInv (xs : List Bool) (n : ℕ) (ist : IState) : Prop :=
  (ist.inSp = false → ∀ j, j < n → n ≤ j + gapLimit → xs.getD j false = false) ∧
  (ist.inSp = true →
    ist.lastV < n ∧ xs.getD ist.lastV false = true ∧ n ≤ ist.lastV + gapLimit ∧
      ∀ j, ist.lastV < j → j < n → xs.getD j false = false)

end Stt

namespace Gateway

/-! ## Credential & session store (`gateway/session_manager.py`)

Redis is modelled as two keyed tables with absolute expiry times:
`session:<sid> -> json(session_data)` and `user_session:<uid> -> sid`.
`SETEX key ttl value` stores `value` with expiry `now + ttl`; `GET` sees a
key until its expiry time (the key is alive at `t` iff `t < expiry`).
Times are `Nat` seconds (`datetime.utcnow()` timestamps are modelled by
the same clock). -/

/-- Constant `settings.session_timeout_seconds = 30 * 60` (gateway/config.py line 16). -/
def session_timeout_seconds : ℕ := 30 * 60

/-- One conversation-history entry (session_manager.py lines 128-132). -/
structure Message where
  role : String
  text : String
  timestamp : ℕ
deriving DecidableEq

/-- The JSON session record (lines 32-38). -/
structure SessionData where
  session_id : String
  user_id : String
  created_at : ℕ
  last_active : ℕ
  conversation_history : List Message
deriving DecidableEq

/-- A keyed table entry: key, value, absolute expiry time. -/
abbrev Table (α : Type) := List (String × α × ℕ)

/-- Redis `SETEX` with absolute expiry: replace any entry for `k`. -/
def setex {α : Type} (k : String) (v : α) (expiry : ℕ) (l : Table α) : Table α :=
  (k, v, expiry) :: l.filter fun e => e.1 ≠ k

/-- Redis `DEL k`. -/
def delKey {α : Type} (k : String) (l : Table α) : Table α :=
  l.filter fun e => e.1 ≠ k

/-- Raw table entry for `k` (value and expiry), ignoring expiry. -/
def findEntry {α : Type} (k : String) (l : Table α) : Option (α × ℕ) :=
  (l.find? fun e => e.1 = k).map fun e => e.2

/-- Redis `GET k` at time `now`: the value if the key is alive. -/
def rget {α : Type} (k : String) (now : ℕ) (l : Table α) : Option α :=
  match findEntry k l with
  | some (v, exp) => if now < exp then some v else none
  | none => none

/-- Expiry time recorded for key `k`, if any entry exists. -/
def keyExpiry {α : Type} (k : String) (l : Table α) : Option ℕ :=
  (findEntry k l).map fun e => e.2

/-- The two Redis keyspaces used by `SessionManager`. -/
structure Store where
  sessions : Table SessionData
  userSession : Table String
deriving DecidableEq

def emptyStore : Store := ⟨[], []⟩

/-- Method `SessionManager.create_session` (lines 27-54).  The fresh
`sess_<uuid4>` id is a parameter `sid`. -/
def create_session (st : Store) (uid sid : String) (now : ℕ) : Store × String :=
  let data : SessionData := ⟨sid, uid, now, now, []⟩
  ({ sessions := setex sid data (now + session_timeout_seconds) st.sessions,
     userSession := setex uid sid (now + session_timeout_seconds) st.userSession },
   sid)

/-- Method `SessionManager.get_session` (lines 56-61). -/
def get_session (st : Store) (sid : String) (now : ℕ) : Option SessionData :=
  rget sid now st.sessions

/-- Method `SessionManager._refresh_session` (lines 84-101): rewrite the session
with `last_active = now` and a fresh TTL, and — when the record's
`user_id` is truthy — refresh the `user_session` mapping with the same
TTL. -/
def refresh_session (st : Store) (sid : String) (data : SessionData) (now : ℕ) : Store :=
  let d := { data with last_active := now }
  let st1 := { st with sessions := setex sid d (now + session_timeout_seconds) st.sessions }
  if d.user_id ≠ "" then
    { st1 with userSession := setex d.user_id sid (now + session_timeout_seconds) st1.userSession }
  else st1

/-- Method `SessionManager.get_or_create_session` (lines 63-82).  `freshSid` is
the uuid that `create_session` would draw.  Returns
(store, session id, is_new_session). -/
def get_or_create_session (st : Store) (uid : String) (now : ℕ) (freshSid : String) :
    Store × String × Bool :=
  match rget uid now st.userSession with
  | some sid =>
      match get_session st sid now with
      | some data => (refresh_session st sid data now, sid, false)
      | none =>
          let p := create_session st uid freshSid now
          (p.1, p.2, true)
  | none =>
      let p := create_session st uid freshSid now
      (p.1, p.2, true)

/-- Method `SessionManager.update_session` (lines 103-117): `session.update(kwargs)`
is modelled by an arbitrary record update `upd`; then `last_active = now`
and the session key alone is rewritten with a fresh TTL. -/
def update_session (st : Store) (sid : String) (upd : SessionData → SessionData) (now : ℕ) :
    Store × Bool :=
  match get_session st sid now with
  | none => (st, false)
  | some data =>
      let d := { upd data with last_active := now }
      ({ st with sessions := setex sid d (now + session_timeout_seconds) st.sessions }, true)

/-- Method `SessionManager.add_to_history` (lines 119-153): append the message,
cap the history at its most recent 100 entries, and rewrite the session
key alone with a fresh TTL. -/
def add_to_history (st : Store) (sid role text : String) (now : ℕ) : Store × Bool :=
  match get_session st sid now with
  | none => (st, false)
  | some data =>
      let msg : Message := ⟨role, text, now⟩
      let history := data.conversation_history ++ [msg]
      let history := if 100 < history.length then history.drop (history.length - 100) else history
      let d := { data with conversation_history := history, last_active := now }
      ({ st with sessions := setex sid d (now + session_timeout_seconds) st.sessions }, true)

/-- Method `SessionManager.get_history` (lines 155-160). -/
def get_history (st : Store) (sid : String) (now : ℕ) : List Message :=
  match get_session st sid now with
  | none => []
  | some data => data.conversation_history

/-- Method `SessionManager.delete_session` (lines 162-174): read the session,
delete its key and — when the record's `user_id` is truthy — the
`user_session` mapping of that user. -/
def delete_session (st : Store) (sid : String) (now : ℕ) : Store × Bool :=
  match get_session st sid now with
  | none => (st, false)
  | some data =>
      let st1 := { st with sessions := delKey sid st.sessions }
      if data.user_id ≠ "" then
        ({ st1 with userSession := delKey data.user_id st1.userSession }, true)
      else (st1, true)

/-! ### Reachable store states

The store-mutating operations, timestamped.  A trace is well formed when
operation times are nondecreasing (the wall clock), freshly drawn session
ids do not collide with a stored session (uuid4 freshness), registered
user ids are truthy strings, and `update_session` kwargs do not rewrite
the record's `user_id` (no caller in the repository passes one). -/

inductive Op where
  | create (uid sid : String)
  | getOrCreate (uid sid : String)
  | update (sid : String) (upd : SessionData → SessionData)
  | addHistory (sid role text : String)
  | delete (sid : String)

def applyOp (st : Store) (op : Op) (now : ℕ) : Store :=
  match op with
  | Op.create uid sid => (create_session st uid sid now).1
  | Op.getOrCreate uid sid => (get_or_create_session st uid now sid).1
  | Op.update sid upd => (update_session st sid upd now).1
  | Op.addHistory sid role text => (add_to_history st sid role text now).1
  | Op.delete sid => (delete_session st sid now).1

def applyTrace (st : Store) : List (Op × ℕ) → Store
  | [] => st
  | (op, t) :: rest => applyTrace (applyOp st op t) rest

/-- Side conditions of one operation against the current store. -/
def WFOp (st : Store) (op : Op) : Prop :=
  match op with
  | Op.create uid sid => uid ≠ "" ∧ findEntry sid st.sessions = none
  | Op.getOrCreate uid sid => uid ≠ "" ∧ findEntry sid st.sessions = none
  | Op.update _ upd => ∀ d, (upd d).user_id = d.user_id
  | Op.addHistory _ _ _ => True
  | Op.delete _ => True

/-- Well-formed timed trace starting at store `st` and time `t`. -/
def WFTrace (st : Store) (t : ℕ) : List (Op × ℕ) → Prop
  | [] => True
  | (op, t') :: rest => t ≤ t' ∧ WFOp st op ∧ WFTrace (applyOp st op t') t' rest

/-- The store invariant the code actually maintains: every `user_session`
mapping entry has a truthy user id and points at a stored session whose
recorded `user_id` is that user and whose expiry is at least the
mapping's expiry. -/
def Inv (st : Store) : Prop :=
  ∀ uid sid exp, findEntry uid st.userSession = some (sid, exp) →
    uid ≠ "" ∧
      ∃ d exps, findEntry sid st.sessions = some (d, exps) ∧ exp ≤ exps ∧ d.user_id = uid

/-- All recorded expiries are at most `t + session_timeout_seconds`: true
whenever every write so far used `SETEX` with the session timeout at a
time at most `t`. -/
def Bound (st : Store) (t : ℕ) : Prop :=
  (∀ e ∈ st.sessions, e.2.2 ≤ t + session_timeout_seconds) ∧
  (∀ e ∈ st.userSession, e.2.2 ≤ t + session_timeout_seconds)

/-- The invariant claimed in the specification: a `user_session` mapping
is alive at `now` iff the session it points to is alive at `now`. -/
def specInvariant (st : Store) (now : ℕ) : Prop :=
  (∀ uid sid, rget uid now st.userSession = some sid →
    (get_session st sid now).isSome) ∧
  (∀ sid d, get_session st sid now = some d →
    rget d.user_id now st.userSession = some sid)

/-! ## Websocket authentication prefix (`gateway/main.py`, `websocket_stt`) -/

/-- The user record resolved by `auth_manager.get_current_user`; only the
`user_id` field is read by the websocket handler. -/
structure AuthUser where
  user_id : String
deriving DecidableEq

/-- Outcome of the `websocket_stt` accept sequence (main.py lines
150-196): either the connection is closed by the auth prefix — before the
session is resolved and before the proxy touches any audio — or the
handler proceeds to session resolution and the proxy with the
authenticated user. -/
inductive WsOutcome where
  | closed (code : ℕ) (reason : String)
  | proceed (userId : String)
deriving DecidableEq

/-- The auth prefix of `websocket_stt`: `verify` is
`auth_manager.get_current_user`, `token` the optional query parameter. -/
def websocket_stt (verify : String → Option AuthUser) (token : Option String) : WsOutcome :=
  match token with
  | none => WsOutcome.closed 4001 "Missing token"
  | some t =>
      match verify t with
      | none => WsOutcome.closed 4001 "Invalid or expired token"
      | some u => WsOutcome.proceed u.user_id

/-- Close code of a `websocket_stt` outcome, if it closed. -/
def closeCode : WsOutcome → Option ℕ
  | WsOutcome.closed c _ => some c
  | WsOutcome.proceed _ => none

/-! ## Proxy message interception (`gateway/proxy.py`, `_process_stt_message`) -/

/-- A message forwarded from the speech endpoint, as the proxy sees it
after `json.loads`: either a JSON object with its `type`, `text` and
`response` fields (each possibly absent), or a non-JSON payload
(`json.JSONDecodeError`). -/
inductive SttMsg where
  | json (msgType : Option String) (text : Option String) (response : Option String)
  | notJson (raw : String)
deriving DecidableEq

/-- The history appends (role, text) that `_process_stt_message` performs
for one forwarded message (proxy.py lines 101-144): a `final` with
non-blank `text` is appended as `user`, an `answer` with non-blank
`response` as `assistant`; `speech_start`, `speech_end`, `error`, unknown
types and non-JSON messages append nothing.  Python's `text.strip()`
truthiness is `strippedNonempty text`. -/
def process_stt_message (m : SttMsg) : List (String × String) :=
  match m with
  | SttMsg.notJson _ => []
  | SttMsg.json mt text response =>
      if mt = some "speech_start" then []
      else if mt = some "speech_end" then []
      else if mt = some "final" then
        let t := text.getD ""
        if strippedNonempty t then [("user", t)] else []
      else if mt = some "answer" then
        let r := response.getD ""
        if strippedNonempty r then [("assistant", r)] else []
      else if mt = some "error" then []
      else []

end Gateway

namespace Dispatch

/-! ## Dispatch fabric retry handling (`rabbitmq_config.py`,
`rag_worker.py`, `memory_worker.py`) -/

/-- Constant `MAX_RETRIES = 3` (rabbitmq_config.py line 22). -/
def MAX_RETRIES : ℕ := 3

/-- The retry envelope of a delivery: `none` when the message has no
headers or no `x-death` header; otherwise the list of `x-death` entries,
each reduced to its optional `count` field. -/
abbrev Headers := Option (List (Option ℕ))

/-- Function `get_retry_count` (rabbitmq_config.py lines 94-102): the sum of the
`count` fields over all `x-death` entries, each defaulting to 0. -/
def get_retry_count (headers : Headers) : ℕ :=
  match headers with
  | none => 0
  | some xdeath => (xdeath.map fun e => e.getD 0).sum

/-- An utterance job body as `rag_worker.on_message` reads it. -/
structure RagJob where
  text : String
  connection_id : String
  seq : ℕ
deriving DecidableEq

/-- Broker-visible effects of one delivery to a consumer. -/
inductive Effect where
  | publishReply (routingKey : String) (query response : String) (seq : ℕ)
  | publishMemoryJob (userMessage assistantResponse : String)
  | saveMemory (summary : String)
  | ack
  | nack
deriving DecidableEq

/-- Callback `rag_worker.on_message` (rag_worker.py lines 54-103).  `qa` is the
answer-generation collaborator (`qa_chain.invoke`), as an oracle that
either returns a response or raises; `body` is the parsed job, `none`
when `json.loads`/key access raises.  At or beyond `MAX_RETRIES`
cumulative failures the delivery is acknowledged untouched; below the
bound the job is processed, and any exception in the handler body is
answered with `nack(requeue=False)` into the dead-letter path. -/
def rag_on_message (qa : String → Except String String) (headers : Headers)
    (body : Option RagJob) : List Effect :=
  let retries := get_retry_count headers
  if MAX_RETRIES ≤ retries then [Effect.ack]
  else
    match body with
    | none => [Effect.nack]
    | some job =>
        match qa job.text with
        | Except.error _ => [Effect.nack]
        | Except.ok response =>
            [Effect.publishReply ("rag.replies." ++ job.connection_id) job.text response job.seq,
             Effect.publishMemoryJob job.text response,
             Effect.ack]

/-- A memory-gate job body as `memory_worker.on_message` reads it. -/
structure MemoryJob where
  user_message : String
  assistant_response : String
deriving DecidableEq

/-- Callback `memory_worker.on_message` (memory_worker.py lines 53-81), with the
same retry prologue; `gate` is the long-term-memory gate collaborator
returning (should_save, summary) or raising. -/
def memory_on_message (gate : String → String → Except String (Bool × String))
    (headers : Headers) (body : Option MemoryJob) : List Effect :=
  let retries := get_retry_count headers
  if MAX_RETRIES ≤ retries then [Effect.ack]
  else
    match body with
    | none => [Effect.nack]
    | some job =>
        match gate job.user_message job.assistant_response with
        | Except.error _ => [Effect.nack]
        | Except.ok r =>
            if r.1 then [Effect.saveMemory r.2, Effect.ack] else [Effect.ack]

/-- Modelled from the spec: the broker's dead-letter transit.  The
dead-letter topology (primary queue → per-topic dead-letter queue with a
fixed TTL → back to the primary queue) is declared in
`rabbitmq_config.setup_exchanges_and_queues`; the broker itself is not in
the repository.  Per the spec, each transit through the dead-letter queue
adds one recorded failure to the delivery's retry envelope, so the
cumulative failure count read by `get_retry_count` grows by one. -/
def deadLetterTransit (headers : Headers) : Headers :=
  some (some 1 :: headers.getD [])

/-- What one delivery does, seen from the broker: discarded (acked with
the handler never run), handled and acked, or nacked into the dead-letter
path. -/
inductive Action where
  | discard
  | done
  | retry
deriving DecidableEq

/-- Modelled from the spec: the life of one queued job through primary
deliveries and dead-letter transits.  `h n` tells whether the handler
body succeeds on the n-th delivery (the consumer's retry prologue and
ack/nack policy are those of `rag_on_message`/`memory_on_message`).  Each
element of the result records the cumulative failure count the consumer
read and what the delivery did. -/
def lifecycle (h : ℕ → Bool) (n : ℕ) (headers : Headers) : List (ℕ × Action) :=
  if MAX_RETRIES ≤ get_retry_count headers then
    [(get_retry_count headers, Action.discard)]
  else if h n then [(get_retry_count headers, Action.done)]
  else
    (get_retry_count headers, Action.retry) ::
      lifecycle h (n + 1) (deadLetterTransit headers)
termination_by MAX_RETRIES - get_retry_count headers
decreasing_by
  simp only [deadLetterTransit, get_retry_count]
  cases headers with
  | none => simp_all [get_retry_count, MAX_RETRIES]
  | some l => simp_all [get_retry_count]; omega

end Dispatch

/-! # Theorems -/

/-! ## Keyed-table lemmas -/

theorem find?_key_filter {α : Type} (l : Gateway.Table α) (k k' : String) :
    ((l.filter fun e => e.1 ≠ k).find? fun e => e.1 = k') =
      (if k' = k then none else l.find? fun e => e.1 = k') := by
  by_cases hk : k' = k
  · subst hk
    rw [if_pos rfl, List.find?_eq_none]
    intro x hx
    have hmem := List.of_mem_filter hx
    simp at hmem ⊢
    exact hmem
  · rw [if_neg hk, List.find?_filter]
    have hfun : (fun (a : String × α × ℕ) =>
          decide (decide (a.1 ≠ k) = true ∧ decide (a.1 = k') = true)) =
        fun (e : String × α × ℕ) => decide (e.1 = k') := by
      funext a
      by_cases hp : a.1 = k' <;> simp [hp, hk]
    rw [hfun]

theorem findEntry_setex {α : Type} (k k' : String) (v : α) (e : ℕ) (l : Gateway.Table α) :
    Gateway.findEntry k' (Gateway.setex k v e l) =
      (if k' = k then some (v, e) else Gateway.findEntry k' l) := by
  by_cases h : k' = k
  · subst h; simp [Gateway.findEntry, Gateway.setex]
  · have h' : ¬ (k = k') := fun hh => h hh.symm
    rw [if_neg h]
    unfold Gateway.findEntry Gateway.setex
    rw [List.find?_cons_of_neg _ (by simp [h']), find?_key_filter, if_neg h]

theorem findEntry_delKey {α : Type} (k k' : String) (l : Gateway.Table α) :
    Gateway.findEntry k' (Gateway.delKey k l) =
      (if k' = k then none else Gateway.findEntry k' l) := by
  unfold Gateway.findEntry Gateway.delKey
  rw [find?_key_filter]
  by_cases h : k' = k <;> simp [h]

theorem rget_eq {α : Type} (k : String) (now : ℕ) (l : Gateway.Table α) :
    Gateway.rget k now l =
      (match Gateway.findEntry k l with
        | some (v, exp) => if now < exp then some v else none
        | none => none) := rfl

/-! ## Dispatch lemmas -/

theorem lifecycle_step (h : ℕ → Bool) (n : ℕ) (headers : Dispatch.Headers) :
    Dispatch.lifecycle h n headers =
      (if Dispatch.MAX_RETRIES ≤ Dispatch.get_retry_count headers then
        [(Dispatch.get_retry_count headers, Dispatch.Action.discard)]
      else if h n then [(Dispatch.get_retry_count headers, Dispatch.Action.done)]
      else
        (Dispatch.get_retry_count headers, Dispatch.Action.retry) ::
          Dispatch.lifecycle h (n + 1) (Dispatch.deadLetterTransit headers)) := by
  rw [Dispatch.lifecycle]

theorem get_retry_count_transit (headers : Dispatch.Headers) :
    Dispatch.get_retry_count (Dispatch.deadLetterTransit headers) =
      Dispatch.get_retry_count headers + 1 := by
  cases headers <;>
    simp [Dispatch.get_retry_count, Dispatch.deadLetterTransit, Nat.add_comm]

/-- C5 (confirmed): a segment whose buffered duration at `speech_end`
is below the 250 ms minimum is never handed to the transcription
collaborator — the step has the same result for every transcription
oracle — and the engine emits `speech_end` followed by a `final` with
empty text and reason `"too_short"`. -/
theorem c5_too_short_never_transcribed
    (st : Stt.ConnState) (f : Stt.Frame)
    (hin : st.inSpeech = true) (hv : f.isVoice = false)
    (hsil : (Stt.SILENCE_CUTOFF_MS : ℚ) ≤ (f.t - st.lastVoiceTs) * 1000)
    (hshort : Stt.utterMs st.speechBuf < (Stt.MIN_UTTERANCE_MS : ℚ)) :
    ∀ (transcribe : List ℕ → Stt.TOutcome) (fwd : Bool) (cid : String),
      Stt.step transcribe fwd cid st f =
        ({ st with inSpeech := false, speechBuf := [] },
          [Stt.Out.speechEnd, Stt.Out.finalTooShort]) := by
  intro transcribe fwd cid
  simp [Stt.step, hin, hv, hsil, hshort]

/-- Witness for C5: a 100 ms segment (5 frames) closed by a frame after a
full second of silence, under a transcription oracle that would return
"hello" if it were consulted. -/
theorem c5_witness :
    Stt.utterMs (List.replicate 5 0) < (Stt.MIN_UTTERANCE_MS : ℚ) ∧
    Stt.step (fun _ => Stt.TOutcome.ok "hello") true "conn"
        ⟨List.replicate 5 0, true, 0, 0⟩ ⟨false, 0, 1⟩ =
      (⟨[], false, 0, 0⟩, [Stt.Out.speechEnd, Stt.Out.finalTooShort]) := by
  have hshort : Stt.utterMs (List.replicate 5 0) < (Stt.MIN_UTTERANCE_MS : ℚ) := by
    norm_num [Stt.utterMs, Stt.FRAME_BYTES, Stt.SAMPLE_RATE, Stt.SAMPLE_WIDTH,
      Stt.FRAME_MS, Stt.MIN_UTTERANCE_MS]
  exact ⟨hshort,
    c5_too_short_never_transcribed ⟨List.replicate 5 0, true, 0, 0⟩ ⟨false, 0, 1⟩
      rfl rfl (by norm_num [Stt.SILENCE_CUTOFF_MS]) hshort
      (fun _ => Stt.TOutcome.ok "hello") true "conn"⟩

/-- C6 counterexample: a completed utterance in the claim's sense — a
13-frame (260 ms ≥ 250 ms) segment whose transcription succeeds — whose
transcribed text is empty: the engine emits the transcribed `final` with
seq 1 but publishes no utterance job at all, so "exactly one utterance
job is published per completed utterance" is false as stated. -/
theorem c6_counterexample :
    (Stt.MIN_UTTERANCE_MS : ℚ) ≤ Stt.utterMs (List.replicate 13 0) ∧
    Stt.step (fun _ => Stt.TOutcome.ok "") true "c1"
        ⟨List.replicate 13 0, true, 0, 0⟩ ⟨false, 0, 1⟩ =
      (⟨[], false, 0, 1⟩, [Stt.Out.speechEnd, Stt.Out.final "" 1]) ∧
    Stt.pubTriples [Stt.Out.speechEnd, Stt.Out.final "" 1] = [] := by
  have hlong : (Stt.MIN_UTTERANCE_MS : ℚ) ≤ Stt.utterMs (List.replicate 13 0) := by
    norm_num [Stt.utterMs, Stt.FRAME_BYTES, Stt.SAMPLE_RATE, Stt.SAMPLE_WIDTH,
      Stt.FRAME_MS, Stt.MIN_UTTERANCE_MS]
  refine ⟨hlong, ?_, by decide⟩
  simp only [Stt.step]
  norm_num [Stt.SILENCE_CUTOFF_MS, Stt.utterMs, Stt.FRAME_BYTES, Stt.SAMPLE_RATE,
    Stt.SAMPLE_WIDTH, Stt.FRAME_MS, Stt.MIN_UTTERANCE_MS, strippedNonempty]

/-- C6 amended: for every completed utterance whose transcribed text
is non-blank, exactly one utterance job is published, carrying the text,
the connection's id and the per-connection sequence number of that
utterance (the same seq the forwarded `final` carries); a blank
transcription publishes no job. -/
theorem c6_amended
    (st : Stt.ConnState) (f : Stt.Frame) (transcribe : List ℕ → Stt.TOutcome)
    (fwd : Bool) (cid text : String)
    (hin : st.inSpeech = true) (hv : f.isVoice = false)
    (hsil : (Stt.SILENCE_CUTOFF_MS : ℚ) ≤ (f.t - st.lastVoiceTs) * 1000)
    (hlong : ¬ Stt.utterMs st.speechBuf < (Stt.MIN_UTTERANCE_MS : ℚ))
    (hok : transcribe st.speechBuf = Stt.TOutcome.ok text) :
    (strippedNonempty text = true →
      Stt.pubTriples (Stt.step transcribe fwd cid st f).2 = [(text, cid, st.seq + 1)]) ∧
    (strippedNonempty text = false →
      Stt.pubTriples (Stt.step transcribe fwd cid st f).2 = []) ∧
    (fwd = true →
      Stt.finalPairs (Stt.step transcribe fwd cid st f).2 = [(text, st.seq + 1)]) := by
  have hstep : Stt.step transcribe fwd cid st f =
      ({ st with inSpeech := false, speechBuf := [], seq := st.seq + 1 },
        [Stt.Out.speechEnd]
          ++ (if fwd then [Stt.Out.final text (st.seq + 1)] else [])
          ++ (if strippedNonempty text then [Stt.Out.publishJob text cid (st.seq + 1)]
              else [])) := by
    simp [Stt.step, hin, hv, hsil, hlong, hok]
  rw [hstep]
  refine ⟨fun hne => ?_, fun hbl => ?_, fun hfwd => ?_⟩
  · cases fwd <;> simp [Stt.pubTriples, hne]
  · cases fwd <;> simp [Stt.pubTriples, hbl]
  · subst hfwd
    by_cases hne : strippedNonempty text <;> simp [Stt.finalPairs, hne]

/-- Witness for the amended C6: a 13-frame segment transcribed to "hi"
publishes exactly the job ("hi", "conn", 1). -/
theorem c6_amended_witness :
    strippedNonempty "hi" = true ∧
    Stt.pubTriples (Stt.step (fun _ => Stt.TOutcome.ok "hi") true "conn"
        ⟨List.replicate 13 0, true, 0, 0⟩ ⟨false, 0, 1⟩).2 = [("hi", "conn", 1)] := by
  have hne : strippedNonempty "hi" = true := by decide
  exact ⟨hne,
    (c6_amended ⟨List.replicate 13 0, true, 0, 0⟩ ⟨false, 0, 1⟩
        (fun _ => Stt.TOutcome.ok "hi") true "conn" "hi" rfl rfl
        (by norm_num [Stt.SILENCE_CUTOFF_MS])
        (by norm_num [Stt.utterMs, Stt.FRAME_BYTES, Stt.SAMPLE_RATE, Stt.SAMPLE_WIDTH,
          Stt.FRAME_MS, Stt.MIN_UTTERANCE_MS])
        rfl).1 hne⟩

/-- C2 counterexample: both the missing-token close and the
invalid/expired-token close use application close code 4001 (main.py
lines 164 and 170), so "the two causes use distinct application close
codes" is false: only the reason strings differ. -/
theorem c2_counterexample :
    Gateway.websocket_stt (fun _ => none) none =
      Gateway.WsOutcome.closed 4001 "Missing token" ∧
    Gateway.websocket_stt (fun _ => none) (some "t") =
      Gateway.WsOutcome.closed 4001 "Invalid or expired token" ∧
    Gateway.closeCode (Gateway.websocket_stt (fun _ => none) none) =
      Gateway.closeCode (Gateway.websocket_stt (fun _ => none) (some "t")) :=
  ⟨rfl, rfl, rfl⟩

/-- C2 amended: a missing bearer token and an invalid/expired bearer
token each close the streaming connection immediately, before any audio
is processed (the handler proceeds past authentication only on a
successfully verified token), but both causes use the same application
close code 4001 and are distinguished only by the close reason string. -/
theorem c2_amended (verify : String → Option Gateway.AuthUser) (token : Option String) :
    (token = none →
      Gateway.websocket_stt verify token = Gateway.WsOutcome.closed 4001 "Missing token") ∧
    (∀ t, token = some t → verify t = none →
      Gateway.websocket_stt verify token =
        Gateway.WsOutcome.closed 4001 "Invalid or expired token") ∧
    (∀ u, Gateway.websocket_stt verify token = Gateway.WsOutcome.proceed u →
      ∃ t usr, token = some t ∧ verify t = some usr ∧ u = usr.user_id) := by
  refine ⟨fun h => ?_, fun t h hv => ?_, fun u h => ?_⟩
  · subst h; rfl
  · subst h; simp [Gateway.websocket_stt, hv]
  · cases token with
    | none => simp [Gateway.websocket_stt] at h
    | some t =>
        cases hv : verify t with
        | none => simp [Gateway.websocket_stt, hv] at h
        | some usr =>
            simp [Gateway.websocket_stt, hv] at h
            exact ⟨t, usr, rfl, hv, h.symm⟩

/-- Witness for the amended C2: concrete closes for a missing and for an
unverifiable token. -/
theorem c2_amended_witness :
    Gateway.websocket_stt (fun _ => none) none =
      Gateway.WsOutcome.closed 4001 "Missing token" ∧
    Gateway.websocket_stt (fun _ => none) (some "expired") =
      Gateway.WsOutcome.closed 4001 "Invalid or expired token" :=
  ⟨(c2_amended (fun _ => none) none).1 rfl,
   (c2_amended (fun _ => none) (some "expired")).2.1 "expired" rfl rfl⟩

/-- C9 (confirmed): of all messages the proxy forwards, exactly a
`final` with non-blank text is appended to session history as role
`user` and an `answer` with non-blank response as role `assistant`;
`speech_start`, `speech_end`, `error`, unknown types, blank-text
`final`/`answer` and non-JSON messages append nothing. -/
theorem c9_history_interception :
    (∀ (text : String) (resp : Option String), strippedNonempty text = true →
      Gateway.process_stt_message (Gateway.SttMsg.json (some "final") (some text) resp) =
        [("user", text)]) ∧
    (∀ (resp : String) (tx : Option String), strippedNonempty resp = true →
      Gateway.process_stt_message (Gateway.SttMsg.json (some "answer") tx (some resp)) =
        [("assistant", resp)]) ∧
    (∀ mt tx resp, mt ≠ some "final" → mt ≠ some "answer" →
      Gateway.process_stt_message (Gateway.SttMsg.json mt tx resp) = []) ∧
    (∀ raw, Gateway.process_stt_message (Gateway.SttMsg.notJson raw) = []) ∧
    (∀ tx resp, strippedNonempty (tx.getD "") = false →
      Gateway.process_stt_message (Gateway.SttMsg.json (some "final") tx resp) = []) ∧
    (∀ tx resp, strippedNonempty (resp.getD "") = false →
      Gateway.process_stt_message (Gateway.SttMsg.json (some "answer") tx resp) = []) := by
  refine ⟨fun text resp h => ?_, fun resp tx h => ?_, fun mt tx resp h1 h2 => ?_,
    fun raw => rfl, fun tx resp h => ?_, fun tx resp h => ?_⟩
  · simp [Gateway.process_stt_message, h]
  · simp [Gateway.process_stt_message, h]
  · simp only [Gateway.process_stt_message]
    split_ifs <;> simp_all
  · simp [Gateway.process_stt_message, h]
  · simp [Gateway.process_stt_message, h]

/-- Witness for C9: a concrete `final` and `answer` append as user and
assistant, and a concrete `speech_start` appends nothing. -/
theorem c9_witness :
    Gateway.process_stt_message
        (Gateway.SttMsg.json (some "final") (some "hello world") none) =
      [("user", "hello world")] ∧
    Gateway.process_stt_message
        (Gateway.SttMsg.json (some "answer") none (some "the answer")) =
      [("assistant", "the answer")] ∧
    Gateway.process_stt_message (Gateway.SttMsg.json (some "speech_start") none none) = [] :=
  ⟨c9_history_interception.1 "hello world" none (by decide),
   c9_history_interception.2.1 "the answer" none (by decide),
   c9_history_interception.2.2.1 (some "speech_start") none none
     (by decide) (by decide)⟩

/-- C3 (confirmed): both queue consumers read the cumulative failure
count from the delivery's retry envelope before processing; at or beyond
3 recorded failures the delivery is acknowledged untouched — for every
handler oracle and body, so nothing is processed and nothing is retried —
while below the bound the job is processed by its consumer (the
utterance worker answering and publishing, the memory-gate worker saving
or skipping), a handler failure in either consumer is nacked into the
dead-letter path, and a job that keeps failing is retried exactly on
failure counts 0, 1 and 2 and discarded on the delivery that carries
count 3. -/
theorem c3_retry_bound :
    (∀ qa headers body, Dispatch.MAX_RETRIES ≤ Dispatch.get_retry_count headers →
      Dispatch.rag_on_message qa headers body = [Dispatch.Effect.ack]) ∧
    (∀ gate headers body, Dispatch.MAX_RETRIES ≤ Dispatch.get_retry_count headers →
      Dispatch.memory_on_message gate headers body = [Dispatch.Effect.ack]) ∧
    (∀ qa headers (job : Dispatch.RagJob) msg,
      Dispatch.get_retry_count headers < Dispatch.MAX_RETRIES →
      qa job.text = Except.error msg →
      Dispatch.rag_on_message qa headers (some job) = [Dispatch.Effect.nack]) ∧
    (∀ qa headers (job : Dispatch.RagJob) resp,
      Dispatch.get_retry_count headers < Dispatch.MAX_RETRIES →
      qa job.text = Except.ok resp →
      Dispatch.rag_on_message qa headers (some job) =
        [Dispatch.Effect.publishReply ("rag.replies." ++ job.connection_id) job.text resp
           job.seq,
         Dispatch.Effect.publishMemoryJob job.text resp, Dispatch.Effect.ack]) ∧
    (∀ gate headers (job : Dispatch.MemoryJob) msg,
      Dispatch.get_retry_count headers < Dispatch.MAX_RETRIES →
      gate job.user_message job.assistant_response = Except.error msg →
      Dispatch.memory_on_message gate headers (some job) = [Dispatch.Effect.nack]) ∧
    (∀ gate headers (job : Dispatch.MemoryJob) (summary : String),
      Dispatch.get_retry_count headers < Dispatch.MAX_RETRIES →
      gate job.user_message job.assistant_response = Except.ok (true, summary) →
      Dispatch.memory_on_message gate headers (some job) =
        [Dispatch.Effect.saveMemory summary, Dispatch.Effect.ack]) ∧
    (∀ gate headers (job : Dispatch.MemoryJob) (summary : String),
      Dispatch.get_retry_count headers < Dispatch.MAX_RETRIES →
      gate job.user_message job.assistant_response = Except.ok (false, summary) →
      Dispatch.memory_on_message gate headers (some job) = [Dispatch.Effect.ack]) ∧
    (∀ h : ℕ → Bool, (∀ n, h n = false) →
      Dispatch.lifecycle h 0 none =
        [(0, Dispatch.Action.retry), (1, Dispatch.Action.retry),
         (2, Dispatch.Action.retry), (3, Dispatch.Action.discard)]) := by
  refine ⟨fun qa headers body hge => ?_, fun gate headers body hge => ?_,
    fun qa headers job msg hlt herr => ?_, fun qa headers job resp hlt hok => ?_,
    fun gate headers job msg hlt herr => ?_, fun gate headers job summary hlt hok => ?_,
    fun gate headers job summary hlt hok => ?_, fun h hf => ?_⟩
  · simp [Dispatch.rag_on_message, hge]
  · simp [Dispatch.memory_on_message, hge]
  · simp [Dispatch.rag_on_message, not_le.mpr hlt, herr]
  · simp [Dispatch.rag_on_message, not_le.mpr hlt, hok]
  · simp [Dispatch.memory_on_message, not_le.mpr hlt, herr]
  · simp [Dispatch.memory_on_message, not_le.mpr hlt, hok]
  · simp [Dispatch.memory_on_message, not_le.mpr hlt, hok]
  · rw [lifecycle_step]
    norm_num [Dispatch.get_retry_count, Dispatch.MAX_RETRIES, hf,
      Dispatch.deadLetterTransit]
    rw [lifecycle_step]
    norm_num [Dispatch.get_retry_count, Dispatch.MAX_RETRIES, hf,
      Dispatch.deadLetterTransit]
    rw [lifecycle_step]
    norm_num [Dispatch.get_retry_count, Dispatch.MAX_RETRIES, hf,
      Dispatch.deadLetterTransit]
    rw [lifecycle_step]
    norm_num [Dispatch.get_retry_count, Dispatch.MAX_RETRIES, hf,
      Dispatch.deadLetterTransit]

/-- Witness for C3: a delivery whose envelope already records 3 failures
is acked untouched; rag and memory deliveries with 2 recorded failures
and a failing handler are nacked; a below-bound memory job is processed
and saved; the always-failing job is retried three times then
discarded. -/
theorem c3_witness :
    Dispatch.MAX_RETRIES ≤ Dispatch.get_retry_count (some [some 3]) ∧
    Dispatch.rag_on_message (fun _ => Except.ok "r") (some [some 3])
        (some ⟨"q", "c", 1⟩) = [Dispatch.Effect.ack] ∧
    Dispatch.rag_on_message (fun _ => Except.error "boom") (some [some 2])
        (some ⟨"q", "c", 1⟩) = [Dispatch.Effect.nack] ∧
    Dispatch.memory_on_message (fun _ _ => Except.error "boom") (some [some 2])
        (some ⟨"u", "a"⟩) = [Dispatch.Effect.nack] ∧
    Dispatch.memory_on_message (fun _ _ => Except.ok (true, "s")) none
        (some ⟨"u", "a"⟩) =
      [Dispatch.Effect.saveMemory "s", Dispatch.Effect.ack] ∧
    Dispatch.lifecycle (fun _ => false) 0 none =
      [(0, Dispatch.Action.retry), (1, Dispatch.Action.retry),
       (2, Dispatch.Action.retry), (3, Dispatch.Action.discard)] :=
  ⟨by decide,
   c3_retry_bound.1 (fun _ => Except.ok "r") (some [some 3]) (some ⟨"q", "c", 1⟩)
     (by decide),
   c3_retry_bound.2.2.1 (fun _ => Except.error "boom") (some [some 2]) ⟨"q", "c", 1⟩
     "boom" (by decide) rfl,
   c3_retry_bound.2.2.2.2.1 (fun _ _ => Except.error "boom") (some [some 2]) ⟨"u", "a"⟩
     "boom" (by decide) rfl,
   c3_retry_bound.2.2.2.2.2.1 (fun _ _ => Except.ok (true, "s")) none ⟨"u", "a"⟩
     "s" (by decide) rfl,
   c3_retry_bound.2.2.2.2.2.2.2 (fun _ => false) (fun _ => rfl)⟩

/-- C7 (confirmed): session history is append-only and capped at the
most recent 100 messages: appending one more message to a session whose
history holds 100 messages yields exactly the old messages 2..100
followed by the new one, in order — length 100, oldest evicted. -/
theorem c7_history_cap
    (st : Gateway.Store) (sid role text : String) (now : ℕ) (data : Gateway.SessionData)
    (hget : Gateway.get_session st sid now = some data)
    (hlen : data.conversation_history.length = 100) :
    Gateway.get_history (Gateway.add_to_history st sid role text now).1 sid now =
      data.conversation_history.drop 1 ++ [⟨role, text, now⟩] ∧
    (Gateway.get_history (Gateway.add_to_history st sid role text now).1 sid now).length
      = 100 := by
  have hdrop : (data.conversation_history ++ [(⟨role, text, now⟩ : Gateway.Message)]).drop 1 =
      data.conversation_history.drop 1 ++ [⟨role, text, now⟩] :=
    List.drop_append_of_le_length (by omega)
  simp only [Gateway.add_to_history, hget]
  simp [Gateway.get_history, Gateway.get_session, Gateway.rget, findEntry_setex,
    Gateway.session_timeout_seconds, hlen, hdrop]

/-- Witness for C7: a concrete session holding 100 messages; the 101st
append evicts the first message. -/
theorem c7_witness :
    Gateway.get_session
        ⟨[("s", ⟨"s", "u", 0, 0, List.replicate 100 ⟨"user", "m", 0⟩⟩, 5)], []⟩ "s" 0 =
      some ⟨"s", "u", 0, 0, List.replicate 100 ⟨"user", "m", 0⟩⟩ ∧
    Gateway.get_history
        (Gateway.add_to_history
          ⟨[("s", ⟨"s", "u", 0, 0, List.replicate 100 ⟨"user", "m", 0⟩⟩, 5)], []⟩
          "s" "user" "new" 0).1 "s" 0 =
      (List.replicate 100 (⟨"user", "m", 0⟩ : Gateway.Message)).drop 1 ++
        [⟨"user", "new", 0⟩] := by
  have h := c7_history_cap
    ⟨[("s", ⟨"s", "u", 0, 0, List.replicate 100 ⟨"user", "m", 0⟩⟩, 5)], []⟩
    "s" "user" "new" 0 ⟨"s", "u", 0, 0, List.replicate 100 ⟨"user", "m", 0⟩⟩
    (by simp [Gateway.get_session, Gateway.rget, Gateway.findEntry]) (by simp)
  exact ⟨by simp [Gateway.get_session, Gateway.rget, Gateway.findEntry], h.1⟩

/-- C8 (confirmed): two `get_or_create_session` calls for the same
user, the second before the session's TTL expires, return the same
session id — `isNew` on the first call (no prior session) and not on the
second — and the second call refreshes both the session's and the
mapping's expiry to `now + session_timeout_seconds` instead of creating a
new session. -/
theorem c8_get_or_create_same_session
    (uid sid1 sid2 : String) (t0 t1 : ℕ)
    (halive : t1 < t0 + Gateway.session_timeout_seconds)
    (huid : uid ≠ "") :
    (Gateway.get_or_create_session Gateway.emptyStore uid t0 sid1).2 = (sid1, true) ∧
    (Gateway.get_or_create_session
        (Gateway.get_or_create_session Gateway.emptyStore uid t0 sid1).1 uid t1 sid2).2 =
      (sid1, false) ∧
    Gateway.keyExpiry sid1
        (Gateway.get_or_create_session
          (Gateway.get_or_create_session Gateway.emptyStore uid t0 sid1).1 uid t1 sid2).1.sessions =
      some (t1 + Gateway.session_timeout_seconds) ∧
    Gateway.keyExpiry uid
        (Gateway.get_or_create_session
          (Gateway.get_or_create_session Gateway.emptyStore uid t0 sid1).1 uid t1 sid2).1.userSession =
      some (t1 + Gateway.session_timeout_seconds) := by
  have h1 : Gateway.get_or_create_session Gateway.emptyStore uid t0 sid1 =
      (⟨[(sid1, ⟨sid1, uid, t0, t0, []⟩, t0 + Gateway.session_timeout_seconds)],
        [(uid, sid1, t0 + Gateway.session_timeout_seconds)]⟩, sid1, true) := by
    simp [Gateway.get_or_create_session, Gateway.emptyStore, Gateway.rget,
      Gateway.findEntry, Gateway.create_session, Gateway.setex]
  rw [h1]
  have h2 : Gateway.get_or_create_session
      (⟨[(sid1, ⟨sid1, uid, t0, t0, []⟩, t0 + Gateway.session_timeout_seconds)],
        [(uid, sid1, t0 + Gateway.session_timeout_seconds)]⟩ : Gateway.Store) uid t1 sid2 =
      (⟨[(sid1, ⟨sid1, uid, t0, t1, []⟩, t1 + Gateway.session_timeout_seconds)],
        [(uid, sid1, t1 + Gateway.session_timeout_seconds)]⟩, sid1, false) := by
    simp [Gateway.get_or_create_session, Gateway.rget, Gateway.findEntry, halive,
      Gateway.get_session, Gateway.refresh_session, Gateway.setex, huid]
  rw [h2]
  refine ⟨rfl, rfl, ?_, ?_⟩ <;>
    simp [Gateway.keyExpiry, Gateway.findEntry]

/-- Witness for C8: user "u", first call at t=0, second at t=1. -/
theorem c8_witness :
    (1 : ℕ) < 0 + Gateway.session_timeout_seconds ∧
    (Gateway.get_or_create_session Gateway.emptyStore "u" 0 "s1").2 = ("s1", true) ∧
    (Gateway.get_or_create_session
        (Gateway.get_or_create_session Gateway.emptyStore "u" 0 "s1").1 "u" 1 "s2").2 =
      ("s1", false) := by
  have h := c8_get_or_create_same_session "u" "s1" "s2" 0 1
    (by norm_num [Gateway.session_timeout_seconds]) (by decide)
  exact ⟨by norm_num [Gateway.session_timeout_seconds], h.1, h.2.1⟩

/-! ## Sequence-counter lemmas -/

theorem finalPairs_append (a b : List Stt.Out) :
    Stt.finalPairs (a ++ b) = Stt.finalPairs a ++ Stt.finalPairs b :=
  List.filterMap_append a b _

theorem pubTriples_append (a b : List Stt.Out) :
    Stt.pubTriples (a ++ b) = Stt.pubTriples a ++ Stt.pubTriples b :=
  List.filterMap_append a b _

theorem finalSeqs_eq_map (outs : List Stt.Out) :
    Stt.finalSeqs outs = (Stt.finalPairs outs).map Prod.snd := by
  induction outs with
  | nil => rfl
  | cons o rest ih => cases o <;> simp [Stt.finalSeqs, Stt.finalPairs] <;> exact ih

/-- Each receive-loop iteration either leaves the sequence counter alone
and emits no transcribed `final` and no job, or — exactly when a
transcription succeeds — increments it once and emits one `final` tagged
with the new value, publishing one matching job iff the text is
non-blank. -/
theorem step_final_char (T : List ℕ → Stt.TOutcome) (cid : String)
    (st : Stt.ConnState) (f : Stt.Frame) :
    ((Stt.step T true cid st f).1.seq = st.seq ∧
      Stt.finalPairs (Stt.step T true cid st f).2 = [] ∧
      Stt.pubTriples (Stt.step T true cid st f).2 = []) ∨
    (∃ text, (Stt.step T true cid st f).1.seq = st.seq + 1 ∧
      Stt.finalPairs (Stt.step T true cid st f).2 = [(text, st.seq + 1)] ∧
      Stt.pubTriples (Stt.step T true cid st f).2 =
        (if strippedNonempty text then [(text, cid, st.seq + 1)] else [])) := by
  by_cases hv : f.isVoice
  · by_cases hsp : st.inSpeech <;>
      · left; simp [Stt.step, hv, hsp, Stt.finalPairs, Stt.pubTriples]
  · by_cases hsp : st.inSpeech
    · by_cases hsil : (Stt.SILENCE_CUTOFF_MS : ℚ) ≤ (f.t - st.lastVoiceTs) * 1000
      · by_cases hshort : Stt.utterMs st.speechBuf < (Stt.MIN_UTTERANCE_MS : ℚ)
        · left; simp [Stt.step, hv, hsp, hsil, hshort, Stt.finalPairs, Stt.pubTriples]
        · cases hT : T st.speechBuf with
          | ok text =>
              right
              refine ⟨text, ?_, ?_, ?_⟩ <;>
                by_cases hne : strippedNonempty text <;>
                  simp [Stt.step, hv, hsp, hsil, hshort, hT, hne,
                    Stt.finalPairs, Stt.pubTriples]
          | timeout =>
              left
              simp [Stt.step, hv, hsp, hsil, hshort, hT, Stt.finalPairs, Stt.pubTriples]
          | failure m =>
              left
              simp [Stt.step, hv, hsp, hsil, hshort, hT, Stt.finalPairs, Stt.pubTriples]
      · left; simp [Stt.step, hv, hsp, hsil, Stt.finalPairs, Stt.pubTriples]
    · left; simp [Stt.step, hv, hsp, Stt.finalPairs, Stt.pubTriples]

/-- Over a whole run with forwarding on, the transcribed `final` events
carry the consecutive seq values `st.seq + 1, st.seq + 2, …`, the counter
ends at `st.seq` plus the number of such finals, and the published jobs
are exactly the non-blank finals tagged with the connection id. -/
theorem run_final_pub (T : List ℕ → Stt.TOutcome) (cid : String) :
    ∀ (fs : List Stt.Frame) (st : Stt.ConnState),
      (Stt.run T true cid st fs).1.seq =
        st.seq + (Stt.finalPairs (Stt.run T true cid st fs).2).length ∧
      (Stt.finalPairs (Stt.run T true cid st fs).2).map Prod.snd =
        List.range' (st.seq + 1) (Stt.finalPairs (Stt.run T true cid st fs).2).length ∧
      Stt.pubTriples (Stt.run T true cid st fs).2 =
        (Stt.finalPairs (Stt.run T true cid st fs).2).filterMap
          (fun p => if strippedNonempty p.1 then some (p.1, cid, p.2) else none) := by
  intro fs
  induction fs with
  | nil => intro st; simp [Stt.run, Stt.finalPairs, Stt.pubTriples]
  | cons f fs ih =>
      intro st
      obtain ⟨ihseq, ihmap, ihpub⟩ := ih (Stt.step T true cid st f).1
      rcases step_final_char T cid st f with ⟨h1, h2, h3⟩ | ⟨text, h1, h2, h3⟩ <;>
        simp only [Stt.run, finalPairs_append, pubTriples_append, h2, h3] <;>
        rw [h1] at ihseq ihmap
      · simpa using ⟨ihseq, ihmap, ihpub⟩
      · refine ⟨?_, ?_, ?_⟩
        · simp [ihseq]; omega
        · simp [List.range'_succ, ihmap]
        · by_cases hne : strippedNonempty text <;> simp [hne, ihpub]

/-- C10 (confirmed): with transcript forwarding on, the per-connection
sequence counter advances exactly once per successful transcription: over
any run of one connection the seq values on transcribed `final` events
are exactly 1, 2, 3, … in emission order, and the published utterance
jobs are exactly the non-blank ones of those finals, with matching text
and seq (a too-short segment's `final` is the seq-less `finalTooShort`
event, and timeouts/failures emit only an `error`, so neither consumes a
seq value). -/
theorem c10_consecutive_seq (transcribe : List ℕ → Stt.TOutcome) (cid : String)
    (t0 : ℚ) (frames : List Stt.Frame) :
    Stt.finalSeqs (Stt.run transcribe true cid (Stt.initConn t0) frames).2 =
      List.range' 1
        (Stt.finalSeqs (Stt.run transcribe true cid (Stt.initConn t0) frames).2).length ∧
    Stt.pubTriples (Stt.run transcribe true cid (Stt.initConn t0) frames).2 =
      (Stt.finalPairs (Stt.run transcribe true cid (Stt.initConn t0) frames).2).filterMap
        (fun p => if strippedNonempty p.1 then some (p.1, cid, p.2) else none) := by
  obtain ⟨-, hmap, hpub⟩ := run_final_pub transcribe cid frames (Stt.initConn t0)
  refine ⟨?_, hpub⟩
  rw [finalSeqs_eq_map]
  simpa [Stt.initConn] using hmap

/-! ## Store invariant lemmas -/

theorem bound_mono {st : Gateway.Store} {t t' : ℕ}
    (h : Gateway.Bound st t) (ht : t ≤ t') : Gateway.Bound st t' :=
  ⟨fun e he => le_trans (h.1 e he) (by omega),
   fun e he => le_trans (h.2 e he) (by omega)⟩

theorem mem_setex {α : Type} {e : String × α × ℕ} {k : String} {v : α} {exp : ℕ}
    {l : Gateway.Table α} (he : e ∈ Gateway.setex k v exp l) :
    e = (k, v, exp) ∨ e ∈ l := by
  rcases List.mem_cons.mp he with h | h
  · exact Or.inl h
  · exact Or.inr (List.mem_of_mem_filter h)

theorem mem_delKey {α : Type} {e : String × α × ℕ} {k : String} {l : Gateway.Table α}
    (he : e ∈ Gateway.delKey k l) : e ∈ l :=
  List.mem_of_mem_filter he

theorem get_session_some {st : Gateway.Store} {sid : String} {now : ℕ}
    {data : Gateway.SessionData} :
    Gateway.get_session st sid now = some data ↔
      ∃ exps, Gateway.findEntry sid st.sessions = some (data, exps) ∧ now < exps := by
  constructor
  · intro h
    unfold Gateway.get_session Gateway.rget at h
    rcases hf : Gateway.findEntry sid st.sessions with - | ⟨d, exps⟩
    · simp [hf] at h
    · simp only [hf] at h
      by_cases hn : now < exps
      · rw [if_pos hn] at h
        injection h with h
        subst h
        exact ⟨exps, rfl, hn⟩
      · rw [if_neg hn] at h; cases h
  · rintro ⟨exps, hfe, hn⟩
    unfold Gateway.get_session Gateway.rget
    simp [hfe, hn]

theorem findEntry_mem {α : Type} {k : String} {v : α} {exp : ℕ} {l : Gateway.Table α}
    (h : Gateway.findEntry k l = some (v, exp)) : (k, v, exp) ∈ l := by
  unfold Gateway.findEntry at h
  rcases hf : l.find? (fun e => decide (e.1 = k)) with - | entry
  · rw [hf] at h; cases h
  · rw [hf] at h
    have hmem := List.mem_of_find?_eq_some hf
    have hpred := List.find?_some hf
    rcases entry with ⟨a, p⟩
    simp at h hpred
    subst h
    subst hpred
    exact hmem

/-- Running `create_session` with a fresh session id and a truthy user id
preserves the store invariant and the expiry bound. -/
theorem create_preserves (st : Gateway.Store) (uid sid : String) (now t : ℕ)
    (hInv : Gateway.Inv st) (hB : Gateway.Bound st t) (ht : t ≤ now)
    (huid : uid ≠ "") (hfresh : Gateway.findEntry sid st.sessions = none) :
    Gateway.Inv (Gateway.create_session st uid sid now).1 ∧
    Gateway.Bound (Gateway.create_session st uid sid now).1 now := by
  constructor
  · intro u s e hfind
    simp only [Gateway.create_session] at hfind ⊢
    rw [findEntry_setex] at hfind
    by_cases hu : u = uid
    · rw [if_pos hu] at hfind
      have h1 : sid = s := congrArg Prod.fst (Option.some.inj hfind)
      have h2 : now + Gateway.session_timeout_seconds = e :=
        congrArg Prod.snd (Option.some.inj hfind)
      refine ⟨by rw [hu]; exact huid, ⟨sid, uid, now, now, []⟩,
        now + Gateway.session_timeout_seconds, ?_, by omega, by rw [hu]⟩
      rw [← h1, findEntry_setex, if_pos rfl]
    · rw [if_neg hu] at hfind
      obtain ⟨hne, d, exps, hsd, hle, hud⟩ := hInv u s e hfind
      by_cases hs : s = sid
      · subst hs; rw [hfresh] at hsd; cases hsd
      · exact ⟨hne, d, exps, by rw [findEntry_setex, if_neg hs]; exact hsd, hle, hud⟩
  · constructor
    · intro e he
      simp only [Gateway.create_session] at he
      rcases mem_setex he with rfl | he'
      · simp
      · exact le_trans (hB.1 e he') (by omega)
    · intro e he
      simp only [Gateway.create_session] at he
      rcases mem_setex he with rfl | he'
      · simp
      · exact le_trans (hB.2 e he') (by omega)

/-- Rewriting the stored session record under its own key with a fresh
TTL — the shared shape of `update_session`, `add_to_history` and the
session half of `_refresh_session` — preserves the invariant and the
bound, provided the rewrite keeps the record's `user_id`. -/
theorem rewrite_preserves (st : Gateway.Store) (sid : String)
    (data d' : Gateway.SessionData) (now t exps₀ : ℕ)
    (hInv : Gateway.Inv st) (hB : Gateway.Bound st t) (ht : t ≤ now)
    (hstored : Gateway.findEntry sid st.sessions = some (data, exps₀))
    (huid : d'.user_id = data.user_id) :
    Gateway.Inv ⟨Gateway.setex sid d' (now + Gateway.session_timeout_seconds) st.sessions,
      st.userSession⟩ ∧
    Gateway.Bound ⟨Gateway.setex sid d' (now + Gateway.session_timeout_seconds) st.sessions,
      st.userSession⟩ now := by
  constructor
  · intro u s e hfind
    obtain ⟨hne, d₀, exps, hsd, hle, hud⟩ := hInv u s e hfind
    by_cases hs : s = sid
    · subst hs
      rw [hstored] at hsd
      have hd : data = d₀ := congrArg Prod.fst (Option.some.inj hsd)
      refine ⟨hne, d', now + Gateway.session_timeout_seconds, ?_, ?_, ?_⟩
      · show Gateway.findEntry s (Gateway.setex s d'
          (now + Gateway.session_timeout_seconds) st.sessions) = _
        rw [findEntry_setex, if_pos rfl]
      · exact le_trans (hB.2 (u, s, e) (findEntry_mem hfind)) (by omega)
      · rw [huid, hd]
        exact hud
    · refine ⟨hne, d₀, exps, ?_, hle, hud⟩
      show Gateway.findEntry s (Gateway.setex sid d'
        (now + Gateway.session_timeout_seconds) st.sessions) = _
      rw [findEntry_setex, if_neg hs]
      exact hsd
  · constructor
    · intro e he
      rcases mem_setex he with rfl | he'
      · simp
      · exact le_trans (hB.1 e he') (by omega)
    · intro e he
      exact le_trans (hB.2 e he) (by omega)

/-- Running `_refresh_session` on the stored record preserves the invariant and
the bound. -/
theorem refresh_preserves (st : Gateway.Store) (sid : String)
    (data : Gateway.SessionData) (now t exps₀ : ℕ)
    (hInv : Gateway.Inv st) (hB : Gateway.Bound st t) (ht : t ≤ now)
    (hstored : Gateway.findEntry sid st.sessions = some (data, exps₀)) :
    Gateway.Inv (Gateway.refresh_session st sid data now) ∧
    Gateway.Bound (Gateway.refresh_session st sid data now) now := by
  have base := rewrite_preserves st sid data { data with last_active := now } now t exps₀
    hInv hB ht hstored rfl
  unfold Gateway.refresh_session
  by_cases hu : ({ data with last_active := now } : Gateway.SessionData).user_id ≠ ""
  · simp only [if_pos hu]
    constructor
    · intro u s e hfind
      simp only [] at hfind
      rw [findEntry_setex] at hfind
      by_cases huu : u = data.user_id
      · rw [if_pos huu] at hfind
        have h1 : sid = s := congrArg Prod.fst (Option.some.inj hfind)
        have h2 : now + Gateway.session_timeout_seconds = e :=
          congrArg Prod.snd (Option.some.inj hfind)
        refine ⟨by rw [huu]; exact hu, { data with last_active := now },
          now + Gateway.session_timeout_seconds, ?_, by omega, by rw [huu]⟩
        rw [← h1]
        show Gateway.findEntry sid (Gateway.setex sid _ _ st.sessions) = _
        rw [findEntry_setex, if_pos rfl]
      · rw [if_neg huu] at hfind
        exact base.1 u s e hfind
    · constructor
      · exact base.2.1
      · intro e he
        rcases mem_setex he with rfl | he'
        · simp
        · exact base.2.2 e he'
  · simp only [if_neg hu]
    exact base

/-- Running `delete_session` preserves the invariant and the bound. -/
theorem delete_preserves (st : Gateway.Store) (sid : String) (now t : ℕ)
    (hInv : Gateway.Inv st) (hB : Gateway.Bound st t) (ht : t ≤ now) :
    Gateway.Inv (Gateway.delete_session st sid now).1 ∧
    Gateway.Bound (Gateway.delete_session st sid now).1 t := by
  unfold Gateway.delete_session
  split
  · exact ⟨hInv, hB⟩
  · rename_i data hg
    obtain ⟨exps₀, hstored, -⟩ := get_session_some.mp hg
    have hinvDel : ∀ (us : Gateway.Table String),
        (∀ u s e, Gateway.findEntry u us = some (s, e) →
          (Gateway.findEntry u st.userSession = some (s, e) ∧ u ≠ data.user_id) ∨
          (Gateway.findEntry u st.userSession = some (s, e) ∧ data.user_id = "")) →
        Gateway.Inv ⟨Gateway.delKey sid st.sessions, us⟩ := by
      intro us hus u s e hfind
      rcases hus u s e hfind with ⟨hold, hne'⟩ | ⟨hold, hblank⟩
      · obtain ⟨hne, d₀, exps, hsd, hle, hud⟩ := hInv u s e hold
        by_cases hs : s = sid
        · subst hs
          rw [hstored] at hsd
          have hd : data = d₀ := congrArg Prod.fst (Option.some.inj hsd)
          rw [← hd] at hud
          exact absurd hud.symm hne'
        · refine ⟨hne, d₀, exps, ?_, hle, hud⟩
          show Gateway.findEntry s (Gateway.delKey sid st.sessions) = _
          rw [findEntry_delKey, if_neg hs]
          exact hsd
      · obtain ⟨hne, d₀, exps, hsd, hle, hud⟩ := hInv u s e hold
        by_cases hs : s = sid
        · subst hs
          rw [hstored] at hsd
          have hd : data = d₀ := congrArg Prod.fst (Option.some.inj hsd)
          rw [← hd] at hud
          rw [hblank] at hud
          exact absurd hud.symm hne
        · refine ⟨hne, d₀, exps, ?_, hle, hud⟩
          show Gateway.findEntry s (Gateway.delKey sid st.sessions) = _
          rw [findEntry_delKey, if_neg hs]
          exact hsd
    by_cases hu : data.user_id ≠ ""
    · simp only [if_pos hu]
      constructor
      · apply hinvDel
        intro u s e hfind
        simp only [] at hfind
        rw [findEntry_delKey] at hfind
        by_cases huu : u = data.user_id
        · rw [if_pos huu] at hfind; cases hfind
        · rw [if_neg huu] at hfind
          exact Or.inl ⟨hfind, huu⟩
      · exact ⟨fun e he => hB.1 e (mem_delKey he),
          fun e he => hB.2 e (mem_delKey he)⟩
    · simp only [if_neg hu]
      push_neg at hu
      constructor
      · apply hinvDel
        intro u s e hfind
        exact Or.inr ⟨hfind, hu⟩
      · exact ⟨fun e he => hB.1 e (mem_delKey he), fun e he => hB.2 e he⟩

/-- Every well-formed operation preserves the invariant and the bound. -/
theorem applyOp_preserves (st : Gateway.Store) (op : Gateway.Op) (t t' : ℕ)
    (hInv : Gateway.Inv st) (hB : Gateway.Bound st t) (ht : t ≤ t')
    (hop : Gateway.WFOp st op) :
    Gateway.Inv (Gateway.applyOp st op t') ∧ Gateway.Bound (Gateway.applyOp st op t') t' := by
  cases op with
  | create uid sid =>
      exact create_preserves st uid sid t' t hInv hB ht hop.1 hop.2
  | getOrCreate uid sid =>
      simp only [Gateway.applyOp, Gateway.get_or_create_session]
      split
      · rename_i sid₀ hm
        split
        · rename_i data hg
          obtain ⟨exps₀, hstored, -⟩ := get_session_some.mp hg
          exact refresh_preserves st sid₀ data t' t exps₀ hInv hB ht hstored
        · exact create_preserves st uid sid t' t hInv hB ht hop.1 hop.2
      · exact create_preserves st uid sid t' t hInv hB ht hop.1 hop.2
  | update sid upd =>
      simp only [Gateway.applyOp, Gateway.update_session]
      split
      · exact ⟨hInv, bound_mono hB ht⟩
      · rename_i data hg
        obtain ⟨exps₀, hstored, -⟩ := get_session_some.mp hg
        exact rewrite_preserves st sid data _ t' t exps₀ hInv hB ht hstored (hop data)
  | addHistory sid role text =>
      simp only [Gateway.applyOp, Gateway.add_to_history]
      split
      · exact ⟨hInv, bound_mono hB ht⟩
      · rename_i data hg
        obtain ⟨exps₀, hstored, -⟩ := get_session_some.mp hg
        exact rewrite_preserves st sid data _ t' t exps₀ hInv hB ht hstored rfl
  | delete sid =>
      obtain ⟨hI, hBd⟩ := delete_preserves st sid t' t hInv hB ht
      exact ⟨hI, bound_mono hBd ht⟩

/-- The invariant holds at every state reachable by a well-formed trace. -/
theorem applyTrace_preserves :
    ∀ (trace : List (Gateway.Op × ℕ)) (st : Gateway.Store) (t : ℕ),
      Gateway.Inv st → Gateway.Bound st t → Gateway.WFTrace st t trace →
      Gateway.Inv (Gateway.applyTrace st trace) := by
  intro trace
  induction trace with
  | nil => intro st t hI hB hW; exact hI
  | cons p rest ih =>
      rcases p with ⟨op, t'⟩
      rintro st t hI hB ⟨ht, hop, hrest⟩
      obtain ⟨hI', hB'⟩ := applyOp_preserves st op t t' hI hB ht hop
      exact ih _ t' hI' hB' hrest

/-- C1 counterexample: the claimed invariant and TTL lockstep fail.
Reachable by a well-formed trace — create a session for user "u" at
t = 0, then `add_to_history` at t = 1 — the session key's expiry is
1801 while the mapping's stays 1800: `add_to_history` refreshes only the
session key (session_manager.py lines 144-148 touch no `user_session`
key).  At t = 1800 the session is still alive but the mapping is gone,
so "the mapping exists iff the session exists and has not expired" is
false at a reachable state, and the claimed per-operation lockstep fails
for `add_to_history`. -/
theorem c1_counterexample :
    Gateway.WFTrace Gateway.emptyStore 0
      [(Gateway.Op.create "u" "s", 0), (Gateway.Op.addHistory "s" "user" "hi", 1)] ∧
    Gateway.keyExpiry "s"
        (Gateway.applyTrace Gateway.emptyStore
          [(Gateway.Op.create "u" "s", 0),
           (Gateway.Op.addHistory "s" "user" "hi", 1)]).sessions = some 1801 ∧
    Gateway.keyExpiry "u"
        (Gateway.applyTrace Gateway.emptyStore
          [(Gateway.Op.create "u" "s", 0),
           (Gateway.Op.addHistory "s" "user" "hi", 1)]).userSession = some 1800 ∧
    ¬ Gateway.specInvariant
        (Gateway.applyTrace Gateway.emptyStore
          [(Gateway.Op.create "u" "s", 0),
           (Gateway.Op.addHistory "s" "user" "hi", 1)]) 1800 := by
  refine ⟨⟨by omega, ⟨by decide, rfl⟩, by omega, trivial, trivial⟩, by decide, by decide, ?_⟩
  intro h
  exact absurd
    (h.2 "s" ⟨"s", "u", 0, 1, [⟨"user", "hi", 1⟩]⟩ (by decide))
    (by decide)

/-- C1 amended: `create_session`, the refresh step of
`get_or_create_session` and `delete_session` do act on the session record
and the user→session mapping in lockstep with the same TTL, but
`update_session` and `add_to_history` refresh only the session record's
key and leave the mapping untouched.  Consequently the mapping can expire
while its session is still alive; the direction the code does maintain,
at every state reachable by a well-formed trace (nondecreasing operation
times, fresh session ids, truthy user ids, `update_session` kwargs not
rewriting `user_id`), is that every mapping entry points at a stored
session of that user whose expiry is at least the mapping's. -/
theorem c1_amended :
    (∀ trace, Gateway.WFTrace Gateway.emptyStore 0 trace →
      Gateway.Inv (Gateway.applyTrace Gateway.emptyStore trace)) ∧
    (∀ st uid sid now,
      Gateway.keyExpiry sid ((Gateway.create_session st uid sid now).1).sessions =
        some (now + Gateway.session_timeout_seconds) ∧
      Gateway.keyExpiry uid ((Gateway.create_session st uid sid now).1).userSession =
        some (now + Gateway.session_timeout_seconds)) ∧
    (∀ st sid (data : Gateway.SessionData) now, data.user_id ≠ "" →
      Gateway.keyExpiry sid (Gateway.refresh_session st sid data now).sessions =
        some (now + Gateway.session_timeout_seconds) ∧
      Gateway.keyExpiry data.user_id
          (Gateway.refresh_session st sid data now).userSession =
        some (now + Gateway.session_timeout_seconds)) ∧
    (∀ st sid now data, Gateway.get_session st sid now = some data →
      Gateway.findEntry sid ((Gateway.delete_session st sid now).1).sessions = none ∧
      (data.user_id ≠ "" →
        Gateway.findEntry data.user_id
          ((Gateway.delete_session st sid now).1).userSession = none)) ∧
    (∀ st sid role text now,
      ((Gateway.add_to_history st sid role text now).1).userSession = st.userSession ∧
      (∀ data, Gateway.get_session st sid now = some data →
        Gateway.keyExpiry sid ((Gateway.add_to_history st sid role text now).1).sessions =
          some (now + Gateway.session_timeout_seconds))) ∧
    (∀ st sid upd now,
      ((Gateway.update_session st sid upd now).1).userSession = st.userSession ∧
      (∀ data, Gateway.get_session st sid now = some data →
        Gateway.keyExpiry sid ((Gateway.update_session st sid upd now).1).sessions =
          some (now + Gateway.session_timeout_seconds))) := by
  refine ⟨?_, ?_, ?_, ?_, ?_, ?_⟩
  · intro trace hwf
    refine applyTrace_preserves trace Gateway.emptyStore 0 ?_ ?_ hwf
    · intro u s e hf
      simp [Gateway.findEntry, Gateway.emptyStore] at hf
    · exact ⟨fun e he => by simp [Gateway.emptyStore] at he,
        fun e he => by simp [Gateway.emptyStore] at he⟩
  · intro st uid sid now
    constructor <;> simp [Gateway.create_session, Gateway.keyExpiry, findEntry_setex]
  · intro st sid data now hu
    unfold Gateway.refresh_session
    rw [if_pos hu]
    constructor
    · show Gateway.keyExpiry sid (Gateway.setex sid _ _ st.sessions) = _
      simp [Gateway.keyExpiry, findEntry_setex]
    · simp [Gateway.keyExpiry, findEntry_setex]
  · intro st sid now data hg
    unfold Gateway.delete_session
    rw [hg]
    dsimp only
    by_cases hu : data.user_id ≠ ""
    · rw [if_pos hu]
      refine ⟨?_, fun _ => ?_⟩
      · show Gateway.findEntry sid (Gateway.delKey sid st.sessions) = none
        rw [findEntry_delKey, if_pos rfl]
      · show Gateway.findEntry data.user_id
          (Gateway.delKey data.user_id st.userSession) = none
        rw [findEntry_delKey, if_pos rfl]
    · rw [if_neg hu]
      refine ⟨?_, fun h => absurd h hu⟩
      show Gateway.findEntry sid (Gateway.delKey sid st.sessions) = none
      rw [findEntry_delKey, if_pos rfl]
  · intro st sid role text now
    constructor
    · unfold Gateway.add_to_history
      split <;> rfl
    · intro data hg
      unfold Gateway.add_to_history
      rw [hg]
      simp [Gateway.keyExpiry, findEntry_setex]
  · intro st sid upd now
    constructor
    · unfold Gateway.update_session
      split <;> rfl
    · intro data hg
      unfold Gateway.update_session
      rw [hg]
      simp [Gateway.keyExpiry, findEntry_setex]

/-- Witness for the amended C1: the invariant holds at the concrete
reachable state of the counterexample trace, and a concrete refresh
updates both keys to the same expiry. -/
theorem c1_amended_witness :
    Gateway.Inv (Gateway.applyTrace Gateway.emptyStore
      [(Gateway.Op.create "u" "s", 0), (Gateway.Op.addHistory "s" "user" "hi", 1)]) ∧
    Gateway.keyExpiry "s"
        (Gateway.refresh_session Gateway.emptyStore "s" ⟨"s", "u", 0, 0, []⟩ 7).sessions =
      some (7 + Gateway.session_timeout_seconds) ∧
    Gateway.keyExpiry "u"
        (Gateway.refresh_session Gateway.emptyStore "s" ⟨"s", "u", 0, 0, []⟩ 7).userSession =
      some (7 + Gateway.session_timeout_seconds) :=
  ⟨c1_amended.1 [(Gateway.Op.create "u" "s", 0), (Gateway.Op.addHistory "s" "user" "hi", 1)]
      ⟨by omega, ⟨by decide, rfl⟩, by omega, trivial, trivial⟩,
   (c1_amended.2.2.1 Gateway.emptyStore "s" ⟨"s", "u", 0, 0, []⟩ 7 (by decide)).1,
   (c1_amended.2.2.1 Gateway.emptyStore "s" ⟨"s", "u", 0, 0, []⟩ 7 (by decide)).2⟩

/-! ## Speech-run lemmas -/

theorem seEvents_append (a b : List Stt.Out) :
    Stt.seEvents (a ++ b) = Stt.seEvents a ++ Stt.seEvents b :=
  List.filterMap_append a b _

/-- On contiguously clocked frames the wall-clock silence test is the
frame-count test. -/
theorem clock_gap_iff (lastV n : ℕ) (h : lastV ≤ n) :
    ((Stt.SILENCE_CUTOFF_MS : ℚ) ≤
      (((n + 1 : ℕ) : ℚ) * (Stt.FRAME_MS : ℚ) / 1000 -
        ((lastV + 1 : ℕ) : ℚ) * (Stt.FRAME_MS : ℚ) / 1000) * 1000) ↔
    Stt.gapLimit ≤ n - lastV := by
  have harith : (((n + 1 : ℕ) : ℚ) * (Stt.FRAME_MS : ℚ) / 1000 -
      ((lastV + 1 : ℕ) : ℚ) * (Stt.FRAME_MS : ℚ) / 1000) * 1000 =
      ((n - lastV : ℕ) : ℚ) * (Stt.FRAME_MS : ℚ) := by
    rw [Nat.cast_sub h]
    push_cast
    ring
  rw [harith, show Stt.FRAME_MS = 20 from rfl, show Stt.gapLimit = 35 from rfl,
    show Stt.SILENCE_CUTOFF_MS = 700 from rfl]
  constructor
  · intro hq
    have h2 : (700 : ℕ) ≤ (n - lastV) * 20 := by exact_mod_cast hq
    omega
  · intro hn
    have h2 : (700 : ℕ) ≤ (n - lastV) * 20 := by omega
    exact_mod_cast h2

/-- A speech frame: enter/stay in speech, reset the silence timer. -/
theorem step_voice (T : List ℕ → Stt.TOutcome) (fwd : Bool) (cid : String)
    (st : Stt.ConnState) (f : Stt.Frame) (hv : f.isVoice = true) :
    Stt.step T fwd cid st f =
      (if st.inSpeech then
        ({ st with lastVoiceTs := f.t, speechBuf := st.speechBuf ++ [f.payload] },
          ([] : List Stt.Out))
      else
        ({ st with lastVoiceTs := f.t, inSpeech := true, speechBuf := [f.payload] },
          [Stt.Out.speechStart])) := by
  cases hisp : st.inSpeech <;> simp [Stt.step, hv, hisp]

/-- A non-speech frame while idle: a no-op. -/
theorem step_idle_silence (T : List ℕ → Stt.TOutcome) (fwd : Bool) (cid : String)
    (st : Stt.ConnState) (f : Stt.Frame) (hv : f.isVoice = false)
    (hisp : st.inSpeech = false) :
    Stt.step T fwd cid st f = (st, []) := by
  simp [Stt.step, hv, hisp]

/-- A non-speech frame inside speech, before the cutoff: a tolerated
pause, a no-op. -/
theorem step_tolerated (T : List ℕ → Stt.TOutcome) (fwd : Bool) (cid : String)
    (st : Stt.ConnState) (f : Stt.Frame) (hv : f.isVoice = false)
    (hisp : st.inSpeech = true)
    (hq : ¬ (Stt.SILENCE_CUTOFF_MS : ℚ) ≤ (f.t - st.lastVoiceTs) * 1000) :
    Stt.step T fwd cid st f = (st, []) := by
  simp [Stt.step, hv, hisp, hq]

/-- A non-speech frame completing the cutoff: whatever the segment's
length and the transcription outcome, the boundary events are exactly
one `speech_end` and the machine leaves speech. -/
theorem step_closing (T : List ℕ → Stt.TOutcome) (fwd : Bool) (cid : String)
    (st : Stt.ConnState) (f : Stt.Frame) (hv : f.isVoice = false)
    (hisp : st.inSpeech = true)
    (hq : (Stt.SILENCE_CUTOFF_MS : ℚ) ≤ (f.t - st.lastVoiceTs) * 1000) :
    Stt.seEvents (Stt.step T fwd cid st f).2 = [Stt.SE.stop] ∧
    (Stt.step T fwd cid st f).1.inSpeech = false := by
  constructor
  · by_cases hshort : Stt.utterMs st.speechBuf < (Stt.MIN_UTTERANCE_MS : ℚ)
    · simp [Stt.step, hv, hisp, hq, hshort, Stt.seEvents, Stt.seOf]
    · cases hT : T st.speechBuf with
      | ok text =>
          cases fwd <;>
            by_cases hne : strippedNonempty text <;>
              simp [Stt.step, hv, hisp, hq, hshort, hT, hne, Stt.seEvents, Stt.seOf]
      | timeout => simp [Stt.step, hv, hisp, hq, hshort, hT, Stt.seEvents, Stt.seOf]
      | failure m => simp [Stt.step, hv, hisp, hq, hshort, hT, Stt.seEvents, Stt.seOf]
  · by_cases hshort : Stt.utterMs st.speechBuf < (Stt.MIN_UTTERANCE_MS : ℚ)
    · simp [Stt.step, hv, hisp, hq, hshort]
    · cases hT : T st.speechBuf <;> simp [Stt.step, hv, hisp, hq, hshort, hT]

set_option maxHeartbeats 1000000 in
/-- One clocked frame: the engine's boundary events match the index
machine's, and the state correspondence is preserved. -/
theorem step_seEvents (T : List ℕ → Stt.TOutcome) (fwd : Bool) (cid : String)
    (st : Stt.ConnState) (ist : Stt.IState) (n : ℕ) (b : Bool) (payload : ℕ)
    (hrel : Stt.RelSt n st ist) :
    Stt.seEvents (Stt.step T fwd cid st
        ⟨b, payload, ((n + 1 : ℕ) : ℚ) * (Stt.FRAME_MS : ℚ) / 1000⟩).2 =
      (Stt.stepIdx ist n b).2 ∧
    Stt.RelSt (n + 1)
      (Stt.step T fwd cid st
        ⟨b, payload, ((n + 1 : ℕ) : ℚ) * (Stt.FRAME_MS : ℚ) / 1000⟩).1
      (Stt.stepIdx ist n b).1 := by
  obtain ⟨hsp, hts⟩ := hrel
  cases hb : b with
  | true =>
      cases hisp : st.inSpeech with
      | true =>
          rw [hisp] at hsp
          have hidx : Stt.stepIdx ist n true = (⟨true, n⟩, []) := by
            simp [Stt.stepIdx, ← hsp]
          rw [step_voice T fwd cid st _ rfl, hisp, if_pos rfl, hidx]
          exact ⟨by simp [Stt.seEvents], rfl, fun _ => ⟨Nat.lt_succ_self n, rfl⟩⟩
      | false =>
          rw [hisp] at hsp
          have hidx : Stt.stepIdx ist n true = (⟨true, n⟩, [Stt.SE.start]) := by
            simp [Stt.stepIdx, ← hsp]
          rw [step_voice T fwd cid st _ rfl, hisp, if_neg (by decide), hidx]
          exact ⟨by simp [Stt.seEvents, Stt.seOf], rfl,
            fun _ => ⟨Nat.lt_succ_self n, rfl⟩⟩
  | false =>
      cases hisp : st.inSpeech with
      | false =>
          rw [hisp] at hsp
          rw [step_idle_silence T fwd cid st _ rfl hisp]
          refine ⟨?_, ?_, fun hc => ?_⟩
          · simp [Stt.stepIdx, ← hsp, Stt.seEvents]
          · simp [Stt.stepIdx, ← hsp, hisp]
          · rw [hisp] at hc; cases hc
      | true =>
          rw [hisp] at hsp
          obtain ⟨hlv, hvts⟩ := hts hisp
          have hgap := clock_gap_iff ist.lastV n (le_of_lt hlv)
          by_cases hg : Stt.gapLimit ≤ n - ist.lastV
          · have hq : (Stt.SILENCE_CUTOFF_MS : ℚ) ≤
                ((((n + 1 : ℕ) : ℚ) * (Stt.FRAME_MS : ℚ) / 1000) - st.lastVoiceTs) * 1000 := by
              rw [hvts]
              exact hgap.mpr hg
            obtain ⟨hev, hst⟩ := step_closing T fwd cid st
              ⟨false, payload, ((n + 1 : ℕ) : ℚ) * (Stt.FRAME_MS : ℚ) / 1000⟩ rfl hisp hq
            refine ⟨?_, ?_, fun hc => ?_⟩
            · rw [hev]; simp [Stt.stepIdx, ← hsp, hg]
            · rw [hst]; simp [Stt.stepIdx, ← hsp, hg]
            · rw [hst] at hc; cases hc
          · have hq : ¬ (Stt.SILENCE_CUTOFF_MS : ℚ) ≤
                ((((n + 1 : ℕ) : ℚ) * (Stt.FRAME_MS : ℚ) / 1000) - st.lastVoiceTs) * 1000 := by
              rw [hvts]
              exact fun hc => hg (hgap.mp hc)
            rw [step_tolerated T fwd cid st _ rfl hisp hq]
            have hstidx : Stt.stepIdx ist n false = (ist, []) := by
              simp [Stt.stepIdx, ← hsp, hg]
            rw [hstidx]
            exact ⟨by simp [Stt.seEvents], by rw [hisp, ← hsp], fun _ => ⟨Nat.lt_succ_of_lt hlv, hvts⟩⟩

/-- Over a clocked classification sequence the engine's boundary events
equal the index machine's. -/
theorem run_seEvents (T : List ℕ → Stt.TOutcome) (fwd : Bool) (cid : String) :
    ∀ (xs : List Bool) (n : ℕ) (st : Stt.ConnState) (ist : Stt.IState),
      Stt.RelSt n st ist →
      Stt.seEvents (Stt.run T fwd cid st (Stt.clockFrames n xs)).2 =
        (Stt.runIdx ist n xs).2 := by
  intro xs
  induction xs with
  | nil =>
      intro n st ist h
      simp [Stt.clockFrames, Stt.run, Stt.runIdx, Stt.seEvents]
  | cons b bs ih =>
      intro n st ist h
      obtain ⟨h1, h2⟩ := step_seEvents T fwd cid st ist n b n h
      simp only [Stt.clockFrames, Stt.run, Stt.runIdx]
      rw [seEvents_append, h1, ih (n + 1) _ _ h2]

/-- The boundary events of the index machine alternate, starting from
its current speech state. -/
theorem runIdx_alternates :
    ∀ (xs : List Bool) (n : ℕ) (ist : Stt.IState),
      Stt.alternates ist.inSp (Stt.runIdx ist n xs).2 = true := by
  intro xs
  induction xs with
  | nil => intro n ist; simp [Stt.runIdx, Stt.alternates]
  | cons b bs ih =>
      intro n ist
      simp only [Stt.runIdx]
      cases hb : b with
      | true =>
          cases hsp : ist.inSp with
          | true =>
              have := ih (n + 1) ⟨true, n⟩
              simp [Stt.stepIdx, hsp, Stt.alternates] at this ⊢
              exact this
          | false =>
              have := ih (n + 1) ⟨true, n⟩
              simp [Stt.stepIdx, hsp, Stt.alternates] at this ⊢
              exact this
      | false =>
          cases hsp : ist.inSp with
          | true =>
              by_cases hg : Stt.gapLimit ≤ n - ist.lastV
              · have := ih (n + 1) { ist with inSp := false }
                simp [Stt.stepIdx, hsp, hg, Stt.alternates] at this ⊢
                exact this
              · have := ih (n + 1) ist
                rw [hsp] at this
                simp [Stt.stepIdx, hsp, hg, this]
          | false =>
              have := ih (n + 1) ist
              rw [hsp] at this
              simp [Stt.stepIdx, hsp, this]

/-- One index-machine step, against the run structure of the whole
sequence: a `start` is emitted exactly at run-starting frames, a `stop`
exactly at cutoff-completing frames, and the machine invariant is
preserved. -/
theorem stepIdx_char (xs : List Bool) (n : ℕ) (ist : Stt.IState)
    (hInv : Stt.IInv xs n ist) :
    ((Stt.stepIdx ist n (xs.getD n false)).2.count Stt.SE.start =
      (if Stt.isRunStart xs n then 1 else 0)) ∧
    ((Stt.stepIdx ist n (xs.getD n false)).2.count Stt.SE.stop =
      (if Stt.isStopIdx xs n then 1 else 0)) ∧
    Stt.IInv xs (n + 1) (Stt.stepIdx ist n (xs.getD n false)).1 := by
  obtain ⟨hout, hin⟩ := hInv
  have hGpos : 1 ≤ Stt.gapLimit := by decide
  cases hb : xs.getD n false with
  | true =>
      have hInvTrue : Stt.IInv xs (n + 1) ⟨true, n⟩ := by
        constructor
        · intro h; simp at h
        · intro _
          refine ⟨Nat.lt_succ_self n, hb, Nat.add_le_add_left hGpos n, ?_⟩
          intro j hj1 hj2
          have h1 : n < j := hj1
          have h2 : j < n + 1 := hj2
          omega
      have hnotStop : Stt.isStopIdx xs n = false := by
        unfold Stt.isStopIdx
        by_cases hGn : Stt.gapLimit ≤ n
        · have h1 : decide (Stt.gapLimit ≤ n) = true := by simp [hGn]
          rw [h1, Bool.true_and]
          unfold Stt.isRunLastVoice
          have h2 : decide (∀ j, j ≤ (n - Stt.gapLimit) + Stt.gapLimit →
              n - Stt.gapLimit < j → xs.getD j false = false) = false := by
            rw [decide_eq_false_iff_not]
            intro hall
            have hc := hall n (by omega) (by omega)
            rw [hb] at hc
            cases hc
          rw [h2, Bool.and_false]
        · have h1 : decide (Stt.gapLimit ≤ n) = false := by simp [hGn]
          rw [h1, Bool.false_and]
      cases hsp : ist.inSp with
      | true =>
          obtain ⟨hlv, hvoice, hnle, hwin⟩ := hin hsp
          have hidxs : (Stt.stepIdx ist n true).1 = ⟨true, n⟩ := by
            simp [Stt.stepIdx]
          have hidxe : (Stt.stepIdx ist n true).2 = [] := by
            simp [Stt.stepIdx, hsp]
          have hnotStart : Stt.isRunStart xs n = false := by
            unfold Stt.isRunStart
            rw [hb, Bool.true_and, decide_eq_false_iff_not]
            intro hall
            have hc := hall ist.lastV hlv hnle
            rw [hvoice] at hc
            cases hc
          rw [hidxs, hidxe, hnotStart, hnotStop]
          exact ⟨by simp, by simp, hInvTrue⟩
      | false =>
          have hidxs : (Stt.stepIdx ist n true).1 = ⟨true, n⟩ := by
            simp [Stt.stepIdx]
          have hidxe : (Stt.stepIdx ist n true).2 = [Stt.SE.start] := by
            simp [Stt.stepIdx, hsp]
          have hStart : Stt.isRunStart xs n = true := by
            unfold Stt.isRunStart
            rw [hb, Bool.true_and, decide_eq_true_eq]
            exact fun j hj1 hj2 => hout hsp j hj1 hj2
          rw [hidxs, hidxe, hStart, hnotStop]
          exact ⟨by simp, by simp, hInvTrue⟩
  | false =>
      have hnotStart : Stt.isRunStart xs n = false := by
        unfold Stt.isRunStart
        rw [hb, Bool.false_and]
      cases hsp : ist.inSp with
      | true =>
          obtain ⟨hlv, hvoice, hnle, hwin⟩ := hin hsp
          by_cases hg : Stt.gapLimit ≤ n - ist.lastV
          · have hEq : n = ist.lastV + Stt.gapLimit := by omega
            have hidxs : (Stt.stepIdx ist n false).1 = { ist with inSp := false } := by
              simp [Stt.stepIdx, hsp, hg]
            have hidxe : (Stt.stepIdx ist n false).2 = [Stt.SE.stop] := by
              simp [Stt.stepIdx, hsp, hg]
            have hStop : Stt.isStopIdx xs n = true := by
              have hsub : n - Stt.gapLimit = ist.lastV := by omega
              unfold Stt.isStopIdx Stt.isRunLastVoice
              have h1 : decide (Stt.gapLimit ≤ n) = true := by
                simp [show Stt.gapLimit ≤ n by omega]
              rw [h1, Bool.true_and, hsub, hvoice, Bool.true_and, decide_eq_true_eq]
              intro j hj1 hj2
              by_cases hjn : j < n
              · exact hwin j hj2 hjn
              · have hje : j = n := by omega
                rw [hje]; exact hb
            have hInvOut : Stt.IInv xs (n + 1) { ist with inSp := false } := by
              constructor
              · intro _
                intro j hj1 hj2
                by_cases hjn : j = n
                · rw [hjn]; exact hb
                · exact hwin j (by omega) (by omega)
              · intro h; simp at h
            rw [hidxs, hidxe, hnotStart, hStop]
            exact ⟨by simp, by simp, hInvOut⟩
          · have hidxs : (Stt.stepIdx ist n false).1 = ist := by
              simp [Stt.stepIdx, hsp, hg]
            have hidxe : (Stt.stepIdx ist n false).2 = [] := by
              simp [Stt.stepIdx, hsp, hg]
            have hnotStop : Stt.isStopIdx xs n = false := by
              unfold Stt.isStopIdx
              by_cases hGn : Stt.gapLimit ≤ n
              · have h1 : decide (Stt.gapLimit ≤ n) = true := by simp [hGn]
                rw [h1, Bool.true_and]
                unfold Stt.isRunLastVoice
                have h2 : decide (∀ j, j ≤ (n - Stt.gapLimit) + Stt.gapLimit →
                    n - Stt.gapLimit < j → xs.getD j false = false) = false := by
                  rw [decide_eq_false_iff_not]
                  intro hall
                  have hc := hall ist.lastV (by omega) (by omega)
                  rw [hvoice] at hc
                  cases hc
                rw [h2, Bool.and_false]
              · have h1 : decide (Stt.gapLimit ≤ n) = false := by simp [hGn]
                rw [h1, Bool.false_and]
            have hInvIn : Stt.IInv xs (n + 1) ist := by
              constructor
              · intro h; rw [hsp] at h; cases h
              · intro _
                refine ⟨by omega, hvoice, by omega, ?_⟩
                intro j hj1 hj2
                by_cases hjn : j = n
                · rw [hjn]; exact hb
                · exact hwin j hj1 (by omega)
            rw [hidxs, hidxe, hnotStart, hnotStop]
            exact ⟨by simp, by simp, hInvIn⟩
      | false =>
          have hidxs : (Stt.stepIdx ist n false).1 = ist := by
            simp [Stt.stepIdx, hsp]
          have hidxe : (Stt.stepIdx ist n false).2 = [] := by
            simp [Stt.stepIdx, hsp]
          have hnotStop : Stt.isStopIdx xs n = false := by
            unfold Stt.isStopIdx
            by_cases hGn : Stt.gapLimit ≤ n
            · have h1 : decide (Stt.gapLimit ≤ n) = true := by simp [hGn]
              rw [h1, Bool.true_and]
              unfold Stt.isRunLastVoice
              have hsil := hout hsp (n - Stt.gapLimit) (by omega) (by omega)
              rw [hsil, Bool.false_and]
            · have h1 : decide (Stt.gapLimit ≤ n) = false := by simp [hGn]
              rw [h1, Bool.false_and]
          have hInvOut : Stt.IInv xs (n + 1) ist := by
            constructor
            · intro _
              intro j hj1 hj2
              by_cases hjn : j = n
              · rw [hjn]; exact hb
              · exact hout hsp j (by omega) (by omega)
            · intro h; rw [hsp] at h; cases h
          rw [hidxs, hidxe, hnotStart, hnotStop]
          exact ⟨by simp, by simp, hInvOut⟩

/-- Counting the index machine's events over the tail of the sequence:
`start`s are the run-starting frames and `stop`s the cutoff-completing
frames at positions from `n` on. -/
theorem runIdx_count (xs : List Bool) :
    ∀ (ys : List Bool) (n : ℕ) (ist : Stt.IState),
      (∀ i, ys.getD i false = xs.getD (n + i) false) →
      Stt.IInv xs n ist →
      ((Stt.runIdx ist n ys).2.count Stt.SE.start =
        (List.range' n ys.length).countP (Stt.isRunStart xs)) ∧
      ((Stt.runIdx ist n ys).2.count Stt.SE.stop =
        (List.range' n ys.length).countP (Stt.isStopIdx xs)) := by
  intro ys
  induction ys with
  | nil =>
      intro n ist hget hInv
      simp [Stt.runIdx]
  | cons b ys ih =>
      intro n ist hget hInv
      have hb : xs.getD n false = b := by
        have h0 := hget 0
        simpa using h0.symm
      obtain ⟨hcs, hcp, hInv'⟩ := stepIdx_char xs n ist hInv
      rw [← hb]
      obtain ⟨ih1, ih2⟩ := ih (n + 1) (Stt.stepIdx ist n (xs.getD n false)).1
        (fun i => by
          have hi := hget (i + 1)
          rw [show n + (i + 1) = n + 1 + i from by omega] at hi
          simpa using hi)
        hInv'
      simp only [Stt.runIdx, List.length_cons, List.range'_succ]
      rw [List.count_append, List.count_append, List.countP_cons, List.countP_cons,
        hcs, hcp, ih1, ih2]
      constructor <;> omega

theorem countP_range'_congr (p q : ℕ → Bool) :
    ∀ (n s : ℕ), (∀ i, s ≤ i → i < s + n → p i = q i) →
      (List.range' s n).countP p = (List.range' s n).countP q := by
  intro n
  induction n with
  | zero => intro s h; rfl
  | succ n ih =>
      intro s h
      rw [List.range'_succ]
      simp only [List.countP_cons]
      rw [h s (le_refl s) (by omega), ih (s + 1) (fun i h1 h2 => h i (by omega) (by omega))]

theorem countP_range'_false (p : ℕ → Bool) :
    ∀ (n s : ℕ), (∀ i, s ≤ i → i < s + n → p i = false) →
      (List.range' s n).countP p = 0 := by
  intro n
  induction n with
  | zero => intro s h; rfl
  | succ n ih =>
      intro s h
      rw [List.range'_succ]
      simp only [List.countP_cons]
      rw [h s (le_refl s) (by omega), ih (s + 1) (fun i h1 h2 => h i (by omega) (by omega))]
      simp

theorem countP_range'_split (p : ℕ → Bool) :
    ∀ (m n s : ℕ),
      (List.range' s (m + n)).countP p =
        (List.range' s m).countP p + (List.range' (s + m) n).countP p := by
  intro m
  induction m with
  | zero => intro n s; simp
  | succ m ih =>
      intro n s
      rw [show m + 1 + n = (m + n) + 1 from by omega, List.range'_succ, List.range'_succ]
      simp only [List.countP_cons]
      rw [ih n (s + 1), show s + (m + 1) = s + 1 + m from by omega]
      omega

theorem countP_range'_shift (p : ℕ → Bool) :
    ∀ (n s G : ℕ),
      (List.range' (s + G) n).countP p = (List.range' s n).countP (fun i => p (i + G)) := by
  intro n
  induction n with
  | zero => intros; rfl
  | succ n ih =>
      intro s G
      rw [List.range'_succ, List.range'_succ]
      simp only [List.countP_cons]
      rw [show s + G + 1 = (s + 1) + G from by omega, ih (s + 1) G]

/-- Each closed run contributes exactly one cutoff-completing frame,
`gapLimit` places after its last speech frame. -/
theorem stops_eq_closed (xs : List Bool) :
    (List.range' 0 xs.length).countP (Stt.isStopIdx xs) = Stt.numClosedRuns xs := by
  unfold Stt.numClosedRuns
  rw [List.range_eq_range']
  by_cases hGL : Stt.gapLimit ≤ xs.length
  · have hsplitL := countP_range'_split (Stt.isStopIdx xs) Stt.gapLimit
      (xs.length - Stt.gapLimit) 0
    rw [show Stt.gapLimit + (xs.length - Stt.gapLimit) = xs.length from by omega] at hsplitL
    have hzeroL : (List.range' 0 Stt.gapLimit).countP (Stt.isStopIdx xs) = 0 :=
      countP_range'_false _ Stt.gapLimit 0 (fun i h1 h2 => by
        unfold Stt.isStopIdx
        have h3 : decide (Stt.gapLimit ≤ i) = false := by
          rw [decide_eq_false_iff_not]; omega
        rw [h3, Bool.false_and])
    have hshift := countP_range'_shift (Stt.isStopIdx xs) (xs.length - Stt.gapLimit) 0
      Stt.gapLimit
    have hcongrL := countP_range'_congr (fun i => Stt.isStopIdx xs (i + Stt.gapLimit))
      (Stt.isRunLastVoice xs) (xs.length - Stt.gapLimit) 0 (fun i h1 h2 => by
        simp only []
        unfold Stt.isStopIdx
        have h3 : decide (Stt.gapLimit ≤ i + Stt.gapLimit) = true := by
          rw [decide_eq_true_eq]; omega
        rw [h3, Bool.true_and, show i + Stt.gapLimit - Stt.gapLimit = i from by omega])
    have hsplitR := countP_range'_split
      (fun i => Stt.isRunLastVoice xs i && decide (i + Stt.gapLimit < xs.length))
      (xs.length - Stt.gapLimit) Stt.gapLimit 0
    rw [show xs.length - Stt.gapLimit + Stt.gapLimit = xs.length from by omega] at hsplitR
    have hzeroR : (List.range' (0 + (xs.length - Stt.gapLimit)) Stt.gapLimit).countP
        (fun i => Stt.isRunLastVoice xs i && decide (i + Stt.gapLimit < xs.length)) = 0 :=
      countP_range'_false _ Stt.gapLimit (0 + (xs.length - Stt.gapLimit)) (fun i h1 h2 => by
        have h3 : decide (i + Stt.gapLimit < xs.length) = false := by
          rw [decide_eq_false_iff_not]; omega
        rw [h3, Bool.and_false])
    have hcongrR := countP_range'_congr
      (fun i => Stt.isRunLastVoice xs i && decide (i + Stt.gapLimit < xs.length))
      (Stt.isRunLastVoice xs) (xs.length - Stt.gapLimit) 0 (fun i h1 h2 => by
        simp only []
        have h3 : decide (i + Stt.gapLimit < xs.length) = true := by
          rw [decide_eq_true_eq]; omega
        rw [h3, Bool.and_true])
    rw [hsplitL, hzeroL, hshift, hcongrL, hsplitR, hzeroR, hcongrR]
    omega
  · rw [countP_range'_false (Stt.isStopIdx xs) xs.length 0 (fun i h1 h2 => by
        unfold Stt.isStopIdx
        have h3 : decide (Stt.gapLimit ≤ i) = false := by
          rw [decide_eq_false_iff_not]; omega
        rw [h3, Bool.false_and]),
      countP_range'_false _ xs.length 0 (fun i h1 h2 => by
        have h3 : decide (i + Stt.gapLimit < xs.length) = false := by
          rw [decide_eq_false_iff_not]
          have hG1 : 1 ≤ Stt.gapLimit := by decide
          omega
        rw [h3, Bool.and_false])]

/-- C4 amended: over every contiguously clocked finite classification
sequence, the engine emits `speech_start` exactly once per maximal run of
speech activity (non-speech gaps shorter than the 700 ms cutoff stay
inside a run) and exactly one matching `speech_end` per closed run — a
run whose last speech frame is followed inside the sequence by the full
silence cutoff — with starts and ends strictly alternating, and emits
neither event otherwise.  A run still open at end-of-input has emitted
its `speech_start` but no `speech_end`. -/
theorem c4_boundary_events (T : List ℕ → Stt.TOutcome) (fwd : Bool) (cid : String)
    (xs : List Bool) :
    ((Stt.seEvents (Stt.runClocked T fwd cid xs).2).count Stt.SE.start =
      Stt.numRuns xs) ∧
    ((Stt.seEvents (Stt.runClocked T fwd cid xs).2).count Stt.SE.stop =
      Stt.numClosedRuns xs) ∧
    (Stt.alternates false (Stt.seEvents (Stt.runClocked T fwd cid xs).2) = true) := by
  have hrel : Stt.RelSt 0 (Stt.initConn 0) ⟨false, 0⟩ :=
    ⟨rfl, fun h => Bool.noConfusion h⟩
  have hse := run_seEvents T fwd cid xs 0 (Stt.initConn 0) ⟨false, 0⟩ hrel
  have hInv0 : Stt.IInv xs 0 ⟨false, 0⟩ :=
    ⟨fun _ j hj _ => absurd hj (Nat.not_lt_zero j), fun h => Bool.noConfusion h⟩
  obtain ⟨hc1, hc2⟩ := runIdx_count xs xs 0 ⟨false, 0⟩ (fun i => by simp) hInv0
  unfold Stt.runClocked
  rw [hse]
  refine ⟨?_, ?_, ?_⟩
  · rw [hc1]
    unfold Stt.numRuns
    rw [List.range_eq_range']
  · rw [hc2, stops_eq_closed]
  · exact runIdx_alternates xs 0 ⟨false, 0⟩

/-- C4 counterexample to the claim as stated: the one-frame sequence
[speech] forms one maximal run, and the engine emits its `speech_start`,
but no `speech_end` is ever emitted — the run is still open at
end-of-input, so "exactly one matching speech_end at the end of each such
run" is false. -/
theorem c4_counterexample :
    (Stt.seEvents (Stt.runClocked (fun _ => Stt.TOutcome.ok "x") true "c" [true]).2).count
        Stt.SE.start = 1 ∧
    Stt.numRuns [true] = 1 ∧
    (Stt.seEvents (Stt.runClocked (fun _ => Stt.TOutcome.ok "x") true "c" [true]).2).count
        Stt.SE.stop = 0 := by
  refine ⟨by decide, by decide, by decide⟩

end EchoMine
